import Mathlib

/-!
Shallow embedding of the velo structured-logging engine (Go) in Lean 4.

Each definition is translated from the corresponding Go source in the
repository (file and symbol named in its doc comment).  Machine integers
are modelled as `Int`/`Nat`; Go byte strings are modelled as Lean
`String` (valid-UTF-8 byte sequences; the encoders only inspect ASCII
bytes, for which per-char and per-byte processing agree).  Terminal
styling (lipgloss) is modelled with the library's default styles, whose
`Render` is the identity on the text and whose level styles render the
fixed four-letter uppercase tags; the spec declares colour purely
cosmetic.
-/

namespace Velo

/-- Log level, from `level.go`: `type Level int8` with
`DebugLevel = -1, InfoLevel = 0, WarnLevel, ErrorLevel, DPanicLevel,
PanicLevel, FatalLevel = 5` and `noLevel = 100`. -/
abbrev Level := Int

def DebugLevel : Level := -1
def InfoLevel : Level := 0
def WarnLevel : Level := 1
def ErrorLevel : Level := 2
def DPanicLevel : Level := 3
def PanicLevel : Level := 4
def FatalLevel : Level := 5
def noLevel : Level := 100

/-- `Level.String` from `level.go`. -/
def levelString (l : Level) : String :=
  if l = DebugLevel then "debug"
  else if l = InfoLevel then "info"
  else if l = WarnLevel then "warn"
  else if l = ErrorLevel then "error"
  else if l = DPanicLevel then "dpanic"
  else if l = PanicLevel then "panic"
  else if l = FatalLevel then "fatal"
  else "Level(" ++ toString l ++ ")"

/-- `Level.JSONField` from `level.go`: the pre-rendered
`"level":"<name>"` JSON fragment. -/
def levelJSONField (l : Level) : String :=
  if l = DebugLevel then "\"level\":\"debug\""
  else if l = InfoLevel then "\"level\":\"info\""
  else if l = WarnLevel then "\"level\":\"warn\""
  else if l = ErrorLevel then "\"level\":\"error\""
  else if l = DPanicLevel then "\"level\":\"dpanic\""
  else if l = PanicLevel then "\"level\":\"panic\""
  else if l = FatalLevel then "\"level\":\"fatal\""
  else "\"level\":\"" ++ levelString l ++ "\""

/-- The default styles' level tag (`DefaultStyles` in the styles source
file): `strings.ToUpper(level.String())` truncated by `MaxWidth(4)`,
defined for the five levels present in the `Levels` map.  The
`CachedLevelStrings` map caches exactly these rendered strings, so the
cache lookup and the `Levels` lookup used by the two text formatters
agree. -/
def cachedLevelString (l : Level) : Option String :=
  if l = DebugLevel then some "DEBU"
  else if l = InfoLevel then some "INFO"
  else if l = WarnLevel then some "WARN"
  else if l = ErrorLevel then some "ERRO"
  else if l = FatalLevel then some "FATA"
  else none

/-- Model of Go `float64`/`float32` as seen by the encoders: the code
only classifies a value (`math.IsNaN`, `math.IsInf`) and formats it
(`strconv.AppendFloat`), so a float is a tag plus, for finite values,
the decimal string `strconv` renders for it. -/
inductive GoFloat where
  | nan
  | inf (neg : Bool)
  | finite (dec : String)
deriving DecidableEq

/-- `math.IsNaN` (standard library). -/
def goIsNaN : GoFloat → Bool
  | .nan => true
  | _ => false

/-- `math.IsInf(v, 0)` (standard library). -/
def goIsInf : GoFloat → Bool
  | .inf _ => true
  | _ => false

/-- `strconv.FormatFloat(v, 'f', -1, 64)` (standard library): `NaN`,
`+Inf`, `-Inf` for non-finite values, the shortest decimal otherwise. -/
def strconvFormatFloat : GoFloat → String
  | .nan => "NaN"
  | .inf true => "-Inf"
  | .inf false => "+Inf"
  | .finite dec => dec

/-- `strconv.FormatBool` (standard library). -/
def strconvFormatBool (b : Bool) : String := if b then "true" else "false"

/-- `strconv.FormatInt(v, 10)` / `strconv.AppendInt` (standard
library): base-10 with leading minus sign, which is `toString` on
`Int`. -/
def strconvFormatInt (v : Int) : String := toString v

/-- The two bytes `_smallsString[i], _smallsString[i+1]` for
`i = n*2` (the zero-padded two-digit decimal of `n < 100`), from the
`_smallsString` table in the time-formatting source file. -/
def smalls2 (n : Nat) : String :=
  String.mk [Char.ofNat (48 + n / 10 % 10), Char.ofNat (48 + n % 10)]

/-- The digit-assembly loop of `appendInt`: emits digits right-to-left
while `u > 0 || width > 0`, i.e. the decimal digits of `u` (none for
zero) left-padded with `'0'` to at least `width` characters. -/
def appendIntDigits (u width : Nat) : List Char :=
  let ds := if u = 0 then [] else Nat.toDigits 10 u
  List.replicate (width - ds.length) '0' ++ ds

/-- `appendInt` from the time-formatting source file: integer
zero-padded to `width`. -/
def appendInt (b : String) (v : Nat) (width : Nat) : String :=
  if width = 2 ∧ v < 100 then b ++ smalls2 v
  else if v = 0 ∧ width ≤ 1 then b ++ "0"
  else b ++ String.mk (appendIntDigits v width)

/-- Model of Go `time.Time` as consumed by the encoders: the calendar
and clock components read by `appendTime` (`t.Date()`, `t.Clock()`,
`t.Nanosecond()`, `t.Zone()`), the epoch projections (`t.Unix()`,
`t.UnixMilli()`, `t.UnixNano()`), the `t.IsZero()` flag, and
`appendFormatDefault`, standing for the standard library
`t.AppendFormat` layout engine used by `appendTime`'s fallback branch
for layouts the custom encoder does not special-case. -/
structure GoTime where
  isZero : Bool
  year : Nat
  month : Nat
  day : Nat
  hour : Nat
  minute : Nat
  sec : Nat
  nano : Nat
  zoneOffset : Int
  unix : Int
  unixMilli : Int
  unixNano : Int
  appendFormatDefault : String → String

/-- The zero `time.Time` (used by the fast paths when timestamp
reporting is disabled). -/
def zeroTime : GoTime :=
  { isZero := true, year := 1, month := 1, day := 1, hour := 0, minute := 0,
    sec := 0, nano := 0, zoneOffset := 0, unix := -62135596800,
    unixMilli := -62135596800000, unixNano := 0,
    appendFormatDefault := fun _ => "" }

/-- `DefaultTimeFormat` from the options source file. -/
def DefaultTimeFormat : String := "2006/01/02 15:04:05"

/-- `time.RFC3339` (standard library constant). -/
def RFC3339 : String := "2006-01-02T15:04:05Z07:00"

/-- `time.RFC3339Nano` (standard library constant). -/
def RFC3339Nano : String := "2006-01-02T15:04:05.999999999Z07:00"

/-- The year rendering shared by `appendTime`'s three special-case
branches: two `_smallsString` pairs when `year < 10000`, otherwise
`appendInt(b, year, 4)`. -/
def yearStr (y : Nat) : String :=
  if y < 10000 then smalls2 (y / 100) ++ smalls2 (y % 100)
  else appendInt "" y 4

/-- The `t.Zone()` offset suffix of the RFC3339 branches of
`appendTime`: `Z` for UTC, otherwise signed `hh:mm`. -/
def zoneSuffix (t : GoTime) : String :=
  if t.zoneOffset = 0 then "Z"
  else
    let off := t.zoneOffset.natAbs
    (if t.zoneOffset < 0 then "-" else "+") ++
      smalls2 (off / 3600) ++ ":" ++ smalls2 (off % 3600 / 60)

/-- The trailing-zero trimming loop of `appendTime`'s RFC3339Nano
branch: drop trailing `'0'` bytes, then one trailing `'.'` if it
remains. -/
def trimNanoZeros (s : String) : String :=
  let rev := s.data.reverse.dropWhile (fun c => c = '0')
  let rev := match rev with
    | '.' :: rest => rest
    | l => l
  String.mk rev.reverse

/-- `appendTime` from the time-formatting source file: custom
zero-allocation encodings for `DefaultTimeFormat`, `time.RFC3339` and
`time.RFC3339Nano`, falling back to the standard library layout engine
otherwise. -/
def appendTime (b : String) (t : GoTime) (format : String) : String :=
  if format = DefaultTimeFormat then
    b ++ yearStr t.year ++ "/" ++ smalls2 t.month ++ "/" ++ smalls2 t.day ++
      " " ++ smalls2 t.hour ++ ":" ++ smalls2 t.minute ++ ":" ++ smalls2 t.sec
  else if format = RFC3339 then
    b ++ yearStr t.year ++ "-" ++ smalls2 t.month ++ "-" ++ smalls2 t.day ++
      "T" ++ smalls2 t.hour ++ ":" ++ smalls2 t.minute ++ ":" ++ smalls2 t.sec ++
      zoneSuffix t
  else if format = RFC3339Nano then
    b ++ trimNanoZeros
      (yearStr t.year ++ "-" ++ smalls2 t.month ++ "-" ++ smalls2 t.day ++
        "T" ++ smalls2 t.hour ++ ":" ++ smalls2 t.minute ++ ":" ++ smalls2 t.sec ++
        "." ++ appendInt "" t.nano 9) ++
      zoneSuffix t
  else b ++ t.appendFormatDefault format

/-- Civil date from days since the Unix epoch (the standard library's
date computation behind `t.Date()`), returning (year, month, day). -/
def civilFromDays (z0 : Int) : Int × Nat × Nat :=
  let z := z0 + 719468
  let era := Int.fdiv z 146097
  let doe := (z - era * 146097).toNat
  let yoe := (doe - doe / 1460 + doe / 36524 - doe / 146096) / 365
  let doy := doe - (365 * yoe + yoe / 4 - yoe / 100)
  let mp := (5 * doy + 2) / 153
  let d := doy - (153 * mp + 2) / 5 + 1
  let m := if mp < 10 then mp + 3 else mp - 9
  let y := era * 400 + yoe + (if m ≤ 2 then 1 else 0)
  (y, m, d)

/-- `time.Unix(0, n)` (standard library): the UTC instant `n`
nanoseconds after the Unix epoch, with the calendar components the
encoders read.  The model fixes the UTC zone (the zone is an ambient
process property) and leaves the fallback layout engine empty; no claim
depends on either. -/
def timeFromUnixNano (n : Int) : GoTime :=
  let secs := Int.fdiv n 1000000000
  let nanos := (Int.fmod n 1000000000).toNat
  let days := Int.fdiv secs 86400
  let secOfDay := (Int.fmod secs 86400).toNat
  let (y, m, d) := civilFromDays days
  { isZero := decide (secs = -62135596800 ∧ nanos = 0),
    year := y.toNat, month := m, day := d,
    hour := secOfDay / 3600, minute := secOfDay % 3600 / 60,
    sec := secOfDay % 60, nano := nanos, zoneOffset := 0,
    unix := secs, unixMilli := Int.fdiv n 1000000,
    unixNano := n, appendFormatDefault := fun _ => "" }

/-- The low `prec` digits of `v`, most significant first (the digit
sequence the `fmtFrac` loop of `time.Duration.String` walks). -/
def fmtFracDigits : Nat → Nat → List Char
  | _, 0 => []
  | v, p + 1 => fmtFracDigits (v / 10) p ++ [Char.ofNat (48 + v % 10)]

/-- The fraction-printing loop `fmtFrac` of `time.Duration.String`
(standard library): the `.`-prefixed low-`prec`-digit fraction of `v`
with trailing zeros omitted (empty if the fraction is all zeros), and
the remaining integer part `v / 10^prec`. -/
def fmtFrac (v : Nat) (prec : Nat) : String × Nat :=
  let s := ((fmtFracDigits v prec).reverse.dropWhile (fun c => c = '0')).reverse
  (if s.isEmpty then "" else String.mk ('.' :: s), v / 10 ^ prec)

/-- `fmtInt` of `time.Duration.String` (standard library): plain
decimal of a nonnegative integer. -/
def fmtInt (u : Nat) : String :=
  if u = 0 then "0" else String.mk (appendIntDigits u 0)

/-- `time.Duration.String` (standard library), reached by the text
encoders through `time.Duration(f.Int).String()` and by `formatAny`
through the `fmt.Stringer` case: sub-second durations use `ns`, `µs`
or `ms` with a trimmed fraction, larger ones use `h`/`m`/`s`. -/
def durationString (d : Int) : String :=
  let u := d.natAbs
  let neg := d < 0
  if u < 1000000000 then
    if u = 0 then "0s"
    else
      let pu : Nat × String :=
        if u < 1000 then (0, "ns")
        else if u < 1000000 then (3, "µs")
        else (6, "ms")
      let (frac, u2) := fmtFrac u pu.1
      (if neg then "-" else "") ++ fmtInt u2 ++ frac ++ pu.2
  else
    let (frac, u2) := fmtFrac u 9
    let core := fmtInt (u2 % 60) ++ frac ++ "s"
    let u3 := u2 / 60
    let core := if u3 > 0 then fmtInt (u3 % 60) ++ "m" ++ core else core
    let u4 := u3 / 60
    let core := if u4 > 0 then fmtInt u4 ++ "h" ++ core else core
    (if neg then "-" else "") ++ core

/-- The `_noEscape` table from `formatter.go` (despite the name, `true`
marks bytes that NEED escaping): control bytes `0x00`-`0x1f`, `'"'` and
`'\'`. -/
def needsJSONEscape (c : Char) : Bool :=
  c.toNat ≤ 0x1f || c = '"' || c = '\\'

/-- The `_hex` digit table from `formatter.go`. -/
def hexDigit (n : Nat) : Char :=
  if n < 10 then Char.ofNat (48 + n) else Char.ofNat (87 + n)

/-- One escaped byte as emitted by `appendJSONStringEscape` in
`formatter.go`: the short escapes for quote, backslash and the named
control characters, `\u00XX` for the remaining control bytes. -/
def escapeJSONChar (c : Char) : String :=
  if c = '"' then "\\\""
  else if c = '\\' then "\\\\"
  else if c = '\n' then "\\n"
  else if c = '\r' then "\\r"
  else if c = '\t' then "\\t"
  else if c.toNat = 8 then "\\b"
  else if c.toNat = 12 then "\\f"
  else String.mk ['\\', 'u', '0', '0', hexDigit (c.toNat / 16), hexDigit (c.toNat % 16)]

/-- The net effect of `appendJSONString`/`appendJSONStringEscape` on the
string body (`formatter.go`): bytes that need no escape are copied
verbatim (the source copies them in chunks), the rest are escaped. -/
def jsonEscape (s : String) : String :=
  s.data.foldl (fun acc c =>
    acc ++ (if needsJSONEscape c then escapeJSONChar c else String.mk [c])) ""

/-- `appendJSONString` from `formatter.go`. -/
def appendJSONString (b : String) (s : String) : String :=
  b ++ "\"" ++ jsonEscape s ++ "\""

/-- `appendJSONKey` from `formatter.go`: optional leading comma, then
the escaped key in quotes, then a colon. -/
def appendJSONKey (b : String) (s : String) (prependComma : Bool) : String :=
  b ++ (if prependComma then "," else "") ++ "\"" ++ jsonEscape s ++ "\":"

/-- Model of the Go `any` values the loosely-typed logging API accepts,
restricted to the types `formatAny` (`util.go`) and `appendJSONAny`
(`formatter.go`) give explicit cases for. -/
inductive AnyVal where
  | str (s : String)
  | int (i : Int)
  | bool (b : Bool)
  | err (msg : String)
  | float64v (f : GoFloat)
  | float32v (f : GoFloat)
  | dur (d : Int)
  | listInt (xs : List Int)
  | listStr (xs : List String)
deriving DecidableEq

/-- `formatAny` from `util.go`: best-effort stringification used by the
text encoders.  `[]int` and `[]string` have no explicit case there and
fall to the `fmt.Sprintf("%+v", v)` default, which prints
space-separated elements in brackets; `time.Duration` is caught by the
`fmt.Stringer` case. -/
def formatAny : AnyVal → String
  | .str s => s
  | .int i => strconvFormatInt i
  | .bool b => strconvFormatBool b
  | .err msg => msg
  | .float64v f => strconvFormatFloat f
  | .float32v f => strconvFormatFloat f
  | .dur d => durationString d
  | .listInt xs => "[" ++ String.intercalate " " (xs.map strconvFormatInt) ++ "]"
  | .listStr xs => "[" ++ String.intercalate " " xs ++ "]"

/-- `JSONEncoder` from `json_encoder.go`: the pooled low-allocation
visitor encoder; `buf` is the buffer it appends to, `first` tracks
whether a separator is owed. -/
structure JSONEncoder where
  buf : String
  first : Bool
deriving DecidableEq

/-- `getJSONEncoder` from `json_encoder.go`. -/
def getJSONEncoder (b : String) : JSONEncoder :=
  { buf := b, first := true }

/-- `JSONEncoder.addKey` from `json_encoder.go`. -/
def JSONEncoder.addKey (enc : JSONEncoder) (key : String) : JSONEncoder :=
  { buf := appendJSONKey enc.buf key (!enc.first), first := false }

/-- `JSONEncoder.addSep` from `json_encoder.go`. -/
def JSONEncoder.addSep (enc : JSONEncoder) : JSONEncoder :=
  { buf := enc.buf ++ (if enc.first then "" else ","), first := false }

/-- `JSONEncoder.AddString` from `json_encoder.go`. -/
def JSONEncoder.AddString (enc : JSONEncoder) (key value : String) : JSONEncoder :=
  let e := enc.addKey key
  { e with buf := appendJSONString e.buf value }

/-- `JSONEncoder.AddInt` / `AddInt64` from `json_encoder.go` (both
append the base-10 integer). -/
def JSONEncoder.AddInt (enc : JSONEncoder) (key : String) (value : Int) : JSONEncoder :=
  let e := enc.addKey key
  { e with buf := e.buf ++ strconvFormatInt value }

/-- `JSONEncoder.AddBool` from `json_encoder.go`. -/
def JSONEncoder.AddBool (enc : JSONEncoder) (key : String) (value : Bool) : JSONEncoder :=
  let e := enc.addKey key
  { e with buf := e.buf ++ strconvFormatBool value }

/-- `JSONEncoder.AddFloat64` from `json_encoder.go`, lines 90-93: the
key, then `strconv.AppendFloat(enc.buf.B, value, 'f', -1, 64)` with NO
check for non-finite values. -/
def JSONEncoder.AddFloat64 (enc : JSONEncoder) (key : String) (value : GoFloat) : JSONEncoder :=
  let e := enc.addKey key
  { e with buf := e.buf ++ strconvFormatFloat value }

/-- `JSONEncoder.AddTime` from `json_encoder.go`. -/
def JSONEncoder.AddTime (enc : JSONEncoder) (key : String) (value : GoTime) : JSONEncoder :=
  let e := enc.addKey key
  { e with buf := appendTime (e.buf ++ "\"") value RFC3339Nano ++ "\"" }

/-- `JSONEncoder.AddDuration` from `json_encoder.go` (nanosecond
count). -/
def JSONEncoder.AddDuration (enc : JSONEncoder) (key : String) (value : Int) : JSONEncoder :=
  let e := enc.addKey key
  { e with buf := e.buf ++ strconvFormatInt value }

/-- `JSONEncoder.AppendString` from `json_encoder.go`. -/
def JSONEncoder.AppendString (enc : JSONEncoder) (value : String) : JSONEncoder :=
  let e := enc.addSep
  { e with buf := appendJSONString e.buf value }

/-- `JSONEncoder.AppendInt` / `AppendInt64` from `json_encoder.go`. -/
def JSONEncoder.AppendInt (enc : JSONEncoder) (value : Int) : JSONEncoder :=
  let e := enc.addSep
  { e with buf := e.buf ++ strconvFormatInt value }

/-- `JSONEncoder.AppendBool` from `json_encoder.go`. -/
def JSONEncoder.AppendBool (enc : JSONEncoder) (value : Bool) : JSONEncoder :=
  let e := enc.addSep
  { e with buf := e.buf ++ strconvFormatBool value }

/-- `JSONEncoder.AppendFloat64` from `json_encoder.go`, lines 152-155:
a separator, then `strconv.AppendFloat` with NO check for non-finite
values. -/
def JSONEncoder.AppendFloat64 (enc : JSONEncoder) (value : GoFloat) : JSONEncoder :=
  let e := enc.addSep
  { e with buf := e.buf ++ strconvFormatFloat value }

/-- `JSONEncoder.AppendTime` from `json_encoder.go`. -/
def JSONEncoder.AppendTime (enc : JSONEncoder) (value : GoTime) : JSONEncoder :=
  let e := enc.addSep
  { e with buf := appendTime (e.buf ++ "\"") value RFC3339Nano ++ "\"" }

/-- `JSONEncoder.AppendDuration` from `json_encoder.go`. -/
def JSONEncoder.AppendDuration (enc : JSONEncoder) (value : Int) : JSONEncoder :=
  let e := enc.addSep
  { e with buf := e.buf ++ strconvFormatInt value }

mutual
/-- The sequence of visitor calls a user `ObjectMarshaler` makes
against an `ObjectEncoder` (`encoder.go`): a user `MarshalLogObject`
is modelled by the list of `Add*` calls it performs. -/
inductive ObjCall where
  | addString (key value : String)
  | addInt (key : String) (value : Int)
  | addBool (key : String) (value : Bool)
  | addFloat64 (key : String) (value : GoFloat)
  | addTime (key : String) (value : GoTime)
  | addDuration (key : String) (value : Int)
  | addObject (key : String) (calls : List ObjCall)
  | addArray (key : String) (calls : List ArrCall)

/-- The sequence of visitor calls a user `ArrayMarshaler` makes against
an `ArrayEncoder` (`encoder.go`). -/
inductive ArrCall where
  | appendString (value : String)
  | appendInt (value : Int)
  | appendBool (value : Bool)
  | appendFloat64 (value : GoFloat)
  | appendTime (value : GoTime)
  | appendDuration (value : Int)
  | appendObject (calls : List ObjCall)
  | appendArray (calls : List ArrCall)
end

mutual
/-- Running a user `MarshalLogObject` against the `JSONEncoder`: each
modelled call dispatches to the corresponding method of
`json_encoder.go`. -/
def runObjCalls : List ObjCall → JSONEncoder → JSONEncoder
  | [], e => e
  | c :: cs, e => runObjCalls cs (runObjCall c e)

/-- One `ObjectEncoder` method call; `AddObject`/`AddArray` follow
`json_encoder.go` lines 107-129 (key, opening bracket, recursive
marshal with `first` reset, closing bracket). -/
def runObjCall : ObjCall → JSONEncoder → JSONEncoder
  | .addString k v, e => e.AddString k v
  | .addInt k v, e => e.AddInt k v
  | .addBool k v, e => e.AddBool k v
  | .addFloat64 k v, e => e.AddFloat64 k v
  | .addTime k v, e => e.AddTime k v
  | .addDuration k v, e => e.AddDuration k v
  | .addObject k cs, e =>
    let e := e.addKey k
    let e := runObjCalls cs { buf := e.buf ++ "\x7b", first := true }
    { buf := e.buf ++ "\x7d", first := false }
  | .addArray k cs, e =>
    let e := e.addKey k
    let e := runArrCalls cs { buf := e.buf ++ "[", first := true }
    { buf := e.buf ++ "]", first := false }

/-- Running a user `MarshalLogArray` against the `JSONEncoder`. -/
def runArrCalls : List ArrCall → JSONEncoder → JSONEncoder
  | [], e => e
  | c :: cs, e => runArrCalls cs (runArrCall c e)

/-- One `ArrayEncoder` method call; `AppendObject`/`AppendArray` follow
`json_encoder.go` lines 169-191. -/
def runArrCall : ArrCall → JSONEncoder → JSONEncoder
  | .appendString v, e => e.AppendString v
  | .appendInt v, e => e.AppendInt v
  | .appendBool v, e => e.AppendBool v
  | .appendFloat64 v, e => e.AppendFloat64 v
  | .appendTime v, e => e.AppendTime v
  | .appendDuration v, e => e.AppendDuration v
  | .appendObject cs, e =>
    let e := e.addSep
    let e := runObjCalls cs { buf := e.buf ++ "\x7b", first := true }
    { buf := e.buf ++ "\x7d", first := false }
  | .appendArray cs, e =>
    let e := e.addSep
    let e := runArrCalls cs { buf := e.buf ++ "[", first := true }
    { buf := e.buf ++ "]", first := false }
end

/-- `appendJSONAny` from `formatter.go` for the modelled value types:
appends an arbitrary value as JSON.  The `float64`/`float32` cases
(lines 857-868) serialize NaN and ±Inf as `null`. -/
def appendJSONAny (b : String) : AnyVal → String
  | .str s => appendJSONString b s
  | .int i => b ++ strconvFormatInt i
  | .bool v => b ++ strconvFormatBool v
  | .err msg => appendJSONString b msg
  | .float64v f =>
    if goIsNaN f || goIsInf f then b ++ "null"
    else b ++ strconvFormatFloat f
  | .float32v f =>
    if goIsNaN f || goIsInf f then b ++ "null"
    else b ++ strconvFormatFloat f
  | .dur d => b ++ strconvFormatInt d
  | .listInt xs =>
    b ++ "[" ++ String.intercalate "," (xs.map strconvFormatInt) ++ "]"
  | .listStr xs =>
    b ++ "[" ++ String.intercalate "," (xs.map (fun v => "\"" ++ jsonEscape v ++ "\"")) ++ "]"

/-- `FieldType` from `field.go`. -/
inductive FieldType where
  | stringType
  | intType
  | boolType
  | errorType
  | timeType
  | durationType
  | anyType
  | objectType
  | arrayType
  | intsType
  | stringsType
  | timesType
deriving DecidableEq

/-- The caller-owned backing array a list-typed Field aliases.  The Go
code smuggles a raw pointer to the first element through the `Str` slot
(`unsafe.String(&val[0], 1)`); the model makes the pointed-to memory
explicit. -/
inductive ListPayload where
  | ints (xs : List Int)
  | strs (xs : List String)
  | times (xs : List GoTime)

/-- The `Any any` slot of a `Field` (`field.go`): `nil`, an `error`, an
`ObjectMarshaler`, an `ArrayMarshaler`, or an arbitrary value. -/
inductive FieldAny where
  | none
  | err (msg : String)
  | obj (calls : List ObjCall)
  | arr (calls : List ArrCall)
  | anyv (v : AnyVal)

/-- `Field` from `field.go`: a strongly typed key-value pair.  `ptr`
models the unsafe pointer hidden in the `Str` slot for the three
list-typed variants (`none` when no backing memory is referenced). -/
structure Field where
  key : String
  str : String
  fany : FieldAny
  int : Int
  ptr : Option ListPayload
  type : FieldType

/-- `String` constructor from `field.go`. -/
def fieldString (key val : String) : Field :=
  { key := key, str := val, fany := .none, int := 0, ptr := none, type := .stringType }

/-- `Int` / `Int64` constructors from `field.go`. -/
def fieldInt (key : String) (val : Int) : Field :=
  { key := key, str := "", fany := .none, int := val, ptr := none, type := .intType }

/-- `Bool` constructor from `field.go`. -/
def fieldBool (key : String) (val : Bool) : Field :=
  { key := key, str := "", fany := .none, int := if val then 1 else 0,
    ptr := none, type := .boolType }

/-- `Time` constructor from `field.go` (stores `val.UnixNano()`). -/
def fieldTime (key : String) (val : GoTime) : Field :=
  { key := key, str := "", fany := .none, int := val.unixNano, ptr := none, type := .timeType }

/-- `Duration` constructor from `field.go`. -/
def fieldDuration (key : String) (val : Int) : Field :=
  { key := key, str := "", fany := .none, int := val, ptr := none, type := .durationType }

/-- `Err` constructor from `field.go` (fixed key `error`; the argument
is `none` for a nil error). -/
def fieldErr (e : Option String) : Field :=
  { key := "error", str := "",
    fany := match e with | some msg => .err msg | none => .none,
    int := 0, ptr := none, type := .errorType }

/-- `Any` constructor from `field.go`. -/
def fieldAny (key : String) (val : AnyVal) : Field :=
  { key := key, str := "", fany := .anyv val, int := 0, ptr := none, type := .anyType }

/-- `Object` constructor from `field.go` (the marshaler modelled as its
call sequence). -/
def fieldObject (key : String) (calls : List ObjCall) : Field :=
  { key := key, str := "", fany := .obj calls, int := 0, ptr := none, type := .objectType }

/-- `Array` constructor from `field.go`. -/
def fieldArray (key : String) (calls : List ArrCall) : Field :=
  { key := key, str := "", fany := .arr calls, int := 0, ptr := none, type := .arrayType }

/-- `Ints` constructor from `field.go`: an empty slice stores a zero
count and no pointer; otherwise the pointer to the caller's backing
array plus the length. -/
def Ints (key : String) (val : List Int) : Field :=
  if val.length = 0 then
    { key := key, str := "", fany := .none, int := 0, ptr := none, type := .intsType }
  else
    { key := key, str := "", fany := .none, int := (val.length : Int),
      ptr := some (.ints val), type := .intsType }

/-- `Strings` constructor from `field.go`. -/
def Strings (key : String) (val : List String) : Field :=
  if val.length = 0 then
    { key := key, str := "", fany := .none, int := 0, ptr := none, type := .stringsType }
  else
    { key := key, str := "", fany := .none, int := (val.length : Int),
      ptr := some (.strs val), type := .stringsType }

/-- `Times` constructor from `field.go`. -/
def Times (key : String) (val : List GoTime) : Field :=
  if val.length = 0 then
    { key := key, str := "", fany := .none, int := 0, ptr := none, type := .timesType }
  else
    { key := key, str := "", fany := .none, int := (val.length : Int),
      ptr := some (.times val), type := .timesType }

/-- The marshaler call list of an object-typed `Any` slot (`nil` makes
no calls). -/
def objCallsOf : FieldAny → List ObjCall
  | .obj cs => cs
  | _ => []

/-- The marshaler call list of an array-typed `Any` slot. -/
def arrCallsOf : FieldAny → List ArrCall
  | .arr cs => cs
  | _ => []

/-- `unsafe.Slice((*int)(...), f.Int)` as performed by the encoders on
an ints-typed field: the first `f.Int` elements of the backing array
the field's pointer references. -/
def derefInts (f : Field) : List Int :=
  match f.ptr with
  | some (.ints xs) => xs.take f.int.toNat
  | _ => []

/-- `unsafe.Slice((*string)(...), f.Int)` on a strings-typed field. -/
def derefStrs (f : Field) : List String :=
  match f.ptr with
  | some (.strs xs) => xs.take f.int.toNat
  | _ => []

/-- `unsafe.Slice((*time.Time)(...), f.Int)` on a times-typed field. -/
def derefTimes (f : Field) : List GoTime :=
  match f.ptr with
  | some (.times xs) => xs.take f.int.toNat
  | _ => []

/-- `encodeFieldToJSON` from `formatter.go` (lines 657-736): a strongly
typed Field as JSON.  The list variants write `[`, dereference the
backing array only under the `f.Int > 0` guard, and close with `]`. -/
def encodeFieldToJSON (b : String) (f : Field) (timeFormat : String)
    (prependComma : Bool) : String :=
  let b := appendJSONKey b f.key prependComma
  match f.type with
  | .stringType => appendJSONString b f.str
  | .intType => b ++ strconvFormatInt f.int
  | .boolType => b ++ strconvFormatBool (f.int == 1)
  | .errorType =>
    match f.fany with
    | .err msg => appendJSONString b msg
    | _ => b ++ "null"
  | .timeType => appendTime (b ++ "\"") (timeFromUnixNano f.int) timeFormat ++ "\""
  | .durationType => b ++ strconvFormatInt f.int
  | .objectType =>
    (runObjCalls (objCallsOf f.fany) { buf := b ++ "\x7b", first := true }).buf ++ "\x7d"
  | .arrayType =>
    (runArrCalls (arrCallsOf f.fany) { buf := b ++ "[", first := true }).buf ++ "]"
  | .intsType =>
    b ++ "[" ++ (if 0 < f.int then
      String.intercalate "," ((derefInts f).map strconvFormatInt) else "") ++ "]"
  | .stringsType =>
    b ++ "[" ++ (if 0 < f.int then
      String.intercalate "," ((derefStrs f).map (fun v => "\"" ++ jsonEscape v ++ "\"")) else "") ++ "]"
  | .timesType =>
    b ++ "[" ++ (if 0 < f.int then
      String.intercalate "," ((derefTimes f).map
        (fun t => "\"" ++ appendTime "" t timeFormat ++ "\"")) else "") ++ "]"
  | .anyType =>
    match f.fany with
    | .anyv v => appendJSONAny b v
    | _ => appendJSONString b "<nil>"

/-- The per-type value string of the typed-field loops in
`formatLogText`/`formatText` (`formatter.go`): each list or marshaler
variant is rendered into a fresh sub-buffer and used as the value
text. -/
def textFieldVal (f : Field) (timeFormat : String) : String :=
  match f.type with
  | .stringType => f.str
  | .intType => strconvFormatInt f.int
  | .boolType => strconvFormatBool (f.int == 1)
  | .errorType =>
    match f.fany with
    | .err msg => msg
    | _ => ""
  | .timeType => appendTime "" (timeFromUnixNano f.int) timeFormat
  | .durationType => durationString f.int
  | .objectType =>
    (runObjCalls (objCallsOf f.fany) { buf := "\x7b", first := true }).buf ++ "\x7d"
  | .arrayType =>
    (runArrCalls (arrCallsOf f.fany) { buf := "[", first := true }).buf ++ "]"
  | .intsType =>
    "[" ++ (if 0 < f.int then
      String.intercalate "," ((derefInts f).map strconvFormatInt) else "") ++ "]"
  | .stringsType =>
    "[" ++ (if 0 < f.int then
      String.intercalate "," ((derefStrs f).map (fun v => "\"" ++ jsonEscape v ++ "\"")) else "") ++ "]"
  | .timesType =>
    "[" ++ (if 0 < f.int then
      String.intercalate "," ((derefTimes f).map
        (fun t => "\"" ++ appendTime "" t timeFormat ++ "\"")) else "") ++ "]"
  | .anyType =>
    match f.fany with
    | .anyv v => formatAny v
    | _ => "<nil>"

/-- The loosely-typed pair loop shared by `formatLogText` (its
`processFields` closure) and `formatText` (`formatter.go`): values are
taken two at a time, a trailing unpaired key is dropped, an
empty-stringifying key is skipped, and a value containing a space or an
equals sign (`strings.Contains` with a one-byte needle, i.e. byte
membership) is wrapped in double quotes. -/
def processFields : String → List AnyVal → String
  | b, k :: v :: rest =>
    let key := formatAny k
    let val := formatAny v
    if key = "" then processFields b rest
    else
      processFields
        (b ++ " " ++ key ++ "=" ++
          (if val.data.contains ' ' || val.data.contains '=' then "\"" ++ val ++ "\"" else val))
        rest
  | b, _ => b

/-- The typed-field loop shared by `formatLogText` (its
`processTypedFields` closure) and `formatText` (`formatter.go`). -/
def processTypedFields (timeFormat : String) : String → List Field → String
  | b, [] => b
  | b, f :: rest =>
    if f.key = "" then processTypedFields timeFormat b rest
    else
      let val := textFieldVal f timeFormat
      processTypedFields timeFormat
        (b ++ " " ++ f.key ++ "=" ++
          (if val.data.contains ' ' || val.data.contains '=' then "\"" ++ val ++ "\"" else val))
        rest

/-- `Formatter` from the options source file. -/
inductive Formatter where
  | textFormatter
  | jsonFormatter
deriving DecidableEq

/-- The fields of `loggerConfig` (`logger.go`) the encoders read.  The
Go field `prefix` is called `pfx` (`prefix` is a Lean keyword). -/
structure LoggerConfig where
  pfx : String
  timeFormat : String
  formatter : Formatter

/-- The per-logger field state the encoders read (`logger.go`):
attached loosely-typed pairs, attached typed fields, and the
pre-encoded JSON fragment built by `With`/`WithFields` under the JSON
formatter. -/
structure LoggerState where
  fields : List AnyVal
  typedFields : List Field
  preEncodedJSON : String

/-- `formatLogText` from `formatter.go` (lines 40-237): the fast-path
text encoder, writing timestamp, level tag, prefix, message, then the
five field groups, then a newline. -/
def formatLogText (l : LoggerState) (cfg : LoggerConfig) (level : Level) (msg : String)
    (callFields : List AnyVal) (callTypedFields ctxFields : List Field) (t : GoTime) : String :=
  let b := ""
  let b := if !t.isZero then b ++ appendTime "" t cfg.timeFormat ++ " " else b
  let b := if level ≠ noLevel then
      match cachedLevelString level with
      | some s => b ++ s ++ " "
      | none => b
    else b
  let b := if cfg.pfx ≠ "" then b ++ cfg.pfx ++ ": " else b
  let b := if msg ≠ "" then b ++ msg else b
  let b := processFields b l.fields
  let b := processFields b callFields
  let b := processTypedFields cfg.timeFormat b l.typedFields
  let b := processTypedFields cfg.timeFormat b ctxFields
  let b := processTypedFields cfg.timeFormat b callTypedFields
  b ++ "\n"

/-- The `"time":` value of the JSON encoders (`formatter.go`):
epoch seconds for `unix`, epoch milliseconds for `unix_milli`, the
quoted `appendTime` rendering otherwise. -/
def jsonTimeVal (timeFormat : String) (t : GoTime) : String :=
  if timeFormat = "unix" then strconvFormatInt t.unix
  else if timeFormat = "unix_milli" then strconvFormatInt t.unixMilli
  else "\"" ++ appendTime "" t timeFormat ++ "\""

/-- `encodeKeyValToJSON` from `formatter.go`.  (The source
short-circuits string keys past `formatAny`; `formatAny` is the
identity on strings, so the two branches coincide.) -/
def encodeKeyValToJSON (b : String) (key val : AnyVal) (prependComma : Bool) : String :=
  appendJSONAny (appendJSONKey b (formatAny key) prependComma) val

/-- The loosely-typed pair loop of the JSON encoders (`formatter.go`):
pairs two at a time, a trailing unpaired key dropped, threading the
leading-comma flag. -/
def jsonLooseLoop : String × Bool → List AnyVal → String × Bool
  | (b, first), k :: v :: rest =>
    jsonLooseLoop (encodeKeyValToJSON b k v (!first), false) rest
  | st, _ => st

/-- The typed-field loop of the JSON encoders (`formatter.go`). -/
def jsonTypedLoop (timeFormat : String) : String × Bool → List Field → String × Bool
  | st, [] => st
  | (b, first), f :: rest =>
    jsonTypedLoop timeFormat (encodeFieldToJSON b f timeFormat (!first), false) rest

/-- `formatLogJSON` from `formatter.go` (lines 243-336): the fast-path
JSON encoder.  Note the ordering: when `hasPreEncoded` is false, the
logger-attached loose AND typed fields are rendered before the
call-site loose fields. -/
def formatLogJSON (l : LoggerState) (cfg : LoggerConfig) (level : Level) (msg : String)
    (callFields : List AnyVal) (callTypedFields ctxFields : List Field) (t : GoTime) : String :=
  let st : String × Bool :=
    if !t.isZero then ("\x7b\"time\":" ++ jsonTimeVal cfg.timeFormat t, false)
    else ("\x7b", true)
  let st := if level ≠ noLevel then
      (st.1 ++ (if st.2 then "" else ",") ++ levelJSONField level, false)
    else st
  let st := if cfg.pfx ≠ "" then
      (appendJSONString (st.1 ++ (if st.2 then "" else ",") ++ "\"prefix\":") cfg.pfx, false)
    else st
  let st := if msg ≠ "" then
      (appendJSONString (st.1 ++ (if st.2 then "" else ",") ++ "\"msg\":") msg, false)
    else st
  let preEncoded := l.preEncodedJSON
  let hasPreEncoded := preEncoded.length > 0 || (l.fields.isEmpty && l.typedFields.isEmpty)
  let st := if hasPreEncoded && preEncoded.length > 0 then
      ((if st.2 then st.1 ++ preEncoded.drop 1 else st.1 ++ preEncoded), false)
    else st
  let st := if !hasPreEncoded then
      jsonTypedLoop cfg.timeFormat (jsonLooseLoop st l.fields) l.typedFields
    else st
  let st := jsonLooseLoop st callFields
  let st := jsonTypedLoop cfg.timeFormat st ctxFields
  let st := jsonTypedLoop cfg.timeFormat st callTypedFields
  st.1 ++ "\x7d\n"

/-- One resolved stack frame (`runtime.Frame`) as consumed by
`writeStacktrace` (`stack.go`); the PC-to-frame resolution performed by
`runtime.CallersFrames` is ambient runtime behaviour. -/
structure StackFrame where
  fname : String
  file : String
  line : Int

/-- `maxTraceDepth` from `stack.go`. -/
def maxTraceDepth : Nat := 5

/-- `strings.Contains` (standard library). -/
def substrContains (s sub : String) : Bool := (s.splitOn sub).length > 1

/-- `s[idx+1:]` for `idx = strings.LastIndexByte(s, '/')`, identity if
there is no slash. -/
def afterLastSlash (s : String) : String := (s.splitOn "/").getLastD s

/-- `s[idx+1:]` for `idx = strings.IndexByte(s, '.')`, identity if
there is no dot. -/
def afterFirstDot (s : String) : String :=
  match s.splitOn "." with
  | [] => s
  | [_] => s
  | _ :: rest => String.intercalate "." rest

/-- The frame loop of `writeStacktrace` from `stack.go`. -/
def writeStacktraceLoop : String → List StackFrame → Nat → String
  | b, [], _ => b
  | b, f :: rest, rendered =>
    if substrContains f.file "runtime/" || substrContains f.file "testing/" then
      writeStacktraceLoop b rest rendered
    else if substrContains f.fname "velo" && !(f.file.endsWith "_test.go") then
      writeStacktraceLoop b rest rendered
    else if rendered ≥ maxTraceDepth then b
    else
      writeStacktraceLoop
        (b ++ "   at " ++ afterFirstDot (afterLastSlash f.fname) ++ " " ++
          afterLastSlash f.file ++ ":" ++ strconvFormatInt f.line ++ "\n")
        rest (rendered + 1)

/-- `writeStacktrace` from `stack.go`: one `   at fn file:line` line per
rendered frame, capped at `maxTraceDepth`, library/runtime internals
skipped. -/
def writeStacktrace (b : String) (frames : List StackFrame) : String :=
  writeStacktraceLoop b frames 0

/-- `Entry` from `entry.go`: the slow-path carrier of one log event.
The Go field `Prefix` is called `pfx` (`prefix` is a Lean keyword). -/
structure Entry where
  time : GoTime
  fields : List AnyVal
  typedFields : List Field
  preEncodedJSON : String
  stack : List StackFrame
  message : String
  pfx : String
  caller : String
  timeFormat : String
  formatter : Formatter
  level : Level

/-- `formatText` from `formatter.go` (lines 350-551): the slow-path
text encoder over a populated `Entry`. -/
def formatText (e : Entry) : String :=
  let b := ""
  let b := if !e.time.isZero then b ++ appendTime "" e.time e.timeFormat ++ " " else b
  let b := if e.level ≠ noLevel then
      match cachedLevelString e.level with
      | some s => b ++ s ++ " "
      | none => b
    else b
  let b := if e.caller ≠ "" then b ++ "<" ++ e.caller ++ ">" ++ " " else b
  let b := if e.pfx ≠ "" then b ++ e.pfx ++ ": " else b
  let b := if e.message ≠ "" then b ++ e.message else b
  let b := processFields b e.fields
  let b := processTypedFields e.timeFormat b e.typedFields
  let b := if e.stack.length > 0 then
      let b2 := writeStacktrace (b ++ "\n") e.stack
      if b2.endsWith "\n" then b2.dropRight 1 else b2
    else b
  b ++ "\n"

/-- `formatJSON` from `formatter.go` (lines 557-644): the slow-path
JSON encoder over a populated `Entry`. -/
def formatJSON (e : Entry) : String :=
  let st : String × Bool :=
    if !e.time.isZero then ("\x7b\"time\":" ++ jsonTimeVal e.timeFormat e.time, false)
    else ("\x7b", true)
  let st := if e.level ≠ noLevel then
      (st.1 ++ (if st.2 then "" else ",") ++ levelJSONField e.level, false)
    else st
  let st := if e.caller ≠ "" then
      (appendJSONString (st.1 ++ (if st.2 then "" else ",") ++ "\"caller\":") e.caller, false)
    else st
  let st := if e.pfx ≠ "" then
      (appendJSONString (st.1 ++ (if st.2 then "" else ",") ++ "\"prefix\":") e.pfx, false)
    else st
  let st := if e.message ≠ "" then
      (appendJSONString (st.1 ++ (if st.2 then "" else ",") ++ "\"msg\":") e.message, false)
    else st
  let st := if e.preEncodedJSON.length > 0 then
      ((if st.2 then st.1 ++ e.preEncodedJSON.drop 1 else st.1 ++ e.preEncodedJSON), false)
    else st
  let st := jsonLooseLoop st e.fields
  let st := jsonTypedLoop e.timeFormat st e.typedFields
  st.1 ++ "\x7d\n"

/-- `formatEntry` from `formatter.go`. -/
def formatEntry (e : Entry) : String :=
  match e.formatter with
  | .jsonFormatter => formatJSON e
  | .textFormatter => formatText e

/-- The Entry population performed by `logWithEntry` (`logger.go` lines
735-765) with caller and stack capture disabled: logger-attached fields
(or the pre-encoded fragment, when the formatter is JSON and the
fragment condition holds), then call-site loose pairs, then context
typed fields, then call-site typed fields. -/
def populateEntry (l : LoggerState) (cfg : LoggerConfig) (level : Level) (msg : String)
    (keyvals : List AnyVal) (typedFields ctxFields : List Field) (t : GoTime) : Entry :=
  let pre := (cfg.formatter = Formatter.jsonFormatter) ∧
    (l.preEncodedJSON.length > 0 ∨ (l.fields.length = 0 ∧ l.typedFields.length = 0))
  { time := t, level := level, message := msg, pfx := cfg.pfx,
    formatter := cfg.formatter, timeFormat := cfg.timeFormat,
    caller := "", stack := [],
    preEncodedJSON := if pre then l.preEncodedJSON else "",
    fields := (if pre then [] else l.fields) ++ keyvals,
    typedFields := (if pre then [] else l.typedFields) ++ ctxFields ++ typedFields }

/-! ## Sampler (sampler source file) -/

/-- `_minLevel` from the sampler source. -/
def samplerMinLevel : Level := DebugLevel

/-- `_maxLevel` from the sampler source. -/
def samplerMaxLevel : Level := FatalLevel

/-- `_numLevels` from the sampler source. -/
def samplerNumLevels : Int := samplerMaxLevel - samplerMinLevel + 1

/-- `_countersPerLevel` from the sampler source. -/
def countersPerLevel : Nat := 4096

/-- One sampler counter (`counter` in the sampler source): a reset
deadline in unix nanoseconds and a count. -/
structure CounterState where
  resetAt : Int
  count : Nat
deriving DecidableEq

/-- `fnv32a` from the sampler source: 32-bit FNV-1a over the message
bytes, each multiply wrapping modulo `2^32`. -/
def fnv32a (s : String) : Nat :=
  s.toUTF8.toList.foldl
    (fun hash b => ((hash ^^^ b.toNat) * 16777619) % 4294967296) 2166136261

/-- `counters.get` from the sampler source: level row (clamped to 0 for
out-of-range levels) and the FNV bucket of the message. -/
def counterIndex (lvl : Level) (msg : String) : Nat × Nat :=
  let i : Int := lvl - samplerMinLevel
  let i : Nat := if i < 0 ∨ i ≥ samplerNumLevels then 0 else i.toNat
  (i, fnv32a msg % countersPerLevel)

/-- The sampler's 2-D counter table (`counters`), as a total map from
(level row, bucket) to counter state. -/
abbrev Counters := Nat → Nat → CounterState

/-- `newCounters`: all counters zero (atomic zero values). -/
def newCounters : Counters := fun _ _ => { resetAt := 0, count := 0 }

/-- `counter.IncCheckReset` from the sampler source, for a sequential
caller: inside the window, increment and return the new count;
otherwise store 1 and extend the window by one tick.  (Sequentially the
`CompareAndSwap` always succeeds, so the losing-race re-increment
branch is unreachable.) -/
def IncCheckReset (c : CounterState) (tn tick : Int) : Nat × CounterState :=
  if c.resetAt > tn then (c.count + 1, { c with count := c.count + 1 })
  else (1, { resetAt := tn + tick, count := 1 })

/-- The sampler configuration (`sampler` struct): tick in nanoseconds,
first-N and thereafter-M thresholds (Go `uint64`). -/
structure SamplerCfg where
  tick : Int
  first : Nat
  thereafter : Nat

/-- `sampler.check` from the sampler source: out-of-range levels always
pass; otherwise increment the (level, message-bucket) counter and drop
iff `n > first && (thereafter == 0 || (n-first)%thereafter != 0)`.
The observer hook is a pure callback and does not affect the
decision. -/
def samplerCheck (s : SamplerCfg) (cs : Counters) (lvl : Level) (msg : String)
    (tn : Int) : Bool × Counters :=
  if samplerMinLevel ≤ lvl ∧ lvl ≤ samplerMaxLevel then
    let ij := counterIndex lvl msg
    let nc := IncCheckReset (cs ij.1 ij.2) tn s.tick
    let cs' : Counters := fun a b => if a = ij.1 ∧ b = ij.2 then nc.2 else cs a b
    if nc.1 > s.first ∧ (s.thereafter = 0 ∨ (nc.1 - s.first) % s.thereafter ≠ 0) then
      (false, cs')
    else (true, cs')
  else (true, cs)

/-- A sequence of sequential `check` calls with a fixed level and
message, at the given call times. -/
def checkSeq (s : SamplerCfg) (cs : Counters) (lvl : Level) (msg : String) :
    List Int → List Bool
  | [] => []
  | t :: ts =>
    let r := samplerCheck s cs lvl msg t
    r.1 :: checkSeq s r.2 lvl msg ts

/-! ## Worker (worker source file) -/

/-- The worker's delivery state machine, abstracting the channel-based
implementation: the bounded queue of submitted buffers, the `bufio`
writer's pending bytes (`bw`), the destination's accumulated output,
the buffers released back to the pool, the stop flag (`flushed`
closed), and the underlying writer's flush behaviour (`none` = flush
succeeds; `some e` = flush reports error `e`). -/
structure WorkerState where
  queue : List String
  bw : String
  dest : String
  released : List String
  stopped : Bool
  flushErr : Option String
deriving DecidableEq

/-- A fresh worker for one destination (`newWorker`). -/
def emptyWorker : WorkerState :=
  { queue := [], bw := "", dest := "", released := [], stopped := false,
    flushErr := none }

/-- `worker.write`: append the buffer's bytes to the buffered writer,
then release the buffer to the pool. -/
def workerWrite (s : WorkerState) (b : String) : WorkerState :=
  { s with bw := s.bw ++ b, released := s.released ++ [b] }

/-- The queue-draining loop of `worker.drainAll`. -/
def drainAllLoop : WorkerState → List String → WorkerState
  | s, [] => s
  | s, b :: rest => drainAllLoop (workerWrite s b) rest

/-- `worker.drainAll`: non-blocking dequeue-and-write until the queue
is empty, in queue order. -/
def drainAll (s : WorkerState) : WorkerState :=
  drainAllLoop { s with queue := [] } s.queue

/-- `worker.flushBuffer`: flush the buffered writer to the destination,
returning the flush error if the underlying writer fails. -/
def flushBuffer (s : WorkerState) : Option String × WorkerState :=
  match s.flushErr with
  | none => (none, { s with dest := s.dest ++ s.bw, bw := "" })
  | some e => (some e, s)

/-- `worker.sync` as one state-machine transition: if the worker has
already stopped (`flushed` closed) return `nil`; otherwise the run
loop's `syncChan` case drains every queued buffer, flushes, and replies
with the flush result. -/
def syncStep (s : WorkerState) : Option String × WorkerState :=
  if s.stopped then (none, s)
  else flushBuffer (drainAll s)

/-- `OverflowStrategy` from the options source file. -/
inductive OverflowStrategy where
  | overflowSync
  | overflowDrop
  | overflowBlock
deriving DecidableEq

/-- What happened to a submitted buffer from the caller's point of
view. -/
inductive SubmitOutcome where
  | enqueued
  | droppedReleased
  | wroteDirect
  | blocked
deriving DecidableEq

/-- `worker.submit`: the non-blocking enqueue (`select` with `default`)
succeeds iff the queue has room; on a full queue the overflow strategy
decides: `OverflowDrop` releases the buffer unwritten, `OverflowSync`
writes the bytes directly to the destination (bypassing queue and
buffered writer) and releases the buffer, `OverflowBlock` suspends the
caller on a blocking enqueue (state unchanged at the moment of
suspension). -/
def submit (s : WorkerState) (cap : Nat) (strategy : OverflowStrategy) (b : String) :
    WorkerState × SubmitOutcome :=
  if s.queue.length < cap then ({ s with queue := s.queue ++ [b] }, .enqueued)
  else
    match strategy with
    | .overflowDrop => ({ s with released := s.released ++ [b] }, .droppedReleased)
    | .overflowBlock => (s, .blocked)
    | .overflowSync =>
      ({ s with dest := s.dest ++ b, released := s.released ++ [b] }, .wroteDirect)

/-! ## Buffer pool (buffer.go) -/

/-- A pooled buffer (`buffer` in `buffer.go`): its byte content and the
capacity of its backing array. -/
structure Buf where
  content : String
  capacity : Nat
deriving DecidableEq

/-- The pool of released buffers.  `sync.Pool` is an unordered
concurrent bag; the model is a list, and the theorems quantify over
every pooled item so the ordering of the model is immaterial. -/
abbrev BufPool := List Buf

/-- `bufPool.New` from `buffer.go`: a fresh empty buffer with a 4096
byte backing array. -/
def newBuf : Buf := { content := "", capacity := 4096 }

/-- `getBuffer` from `buffer.go`: take a pooled buffer, or allocate a
fresh one when the pool is empty. -/
def getBuffer : BufPool → Buf × BufPool
  | [] => (newBuf, [])
  | b :: rest => (b, rest)

/-- `buffer.Reset` from `buffer.go`: truncate to length zero, keeping
the backing array. -/
def bufReset (b : Buf) : Buf := { b with content := "" }

/-- `putBuffer` from `buffer.go`: discard buffers whose capacity
exceeds 64 KiB, otherwise reset and return to the pool. -/
def putBuffer (p : BufPool) (b : Buf) : BufPool :=
  if b.capacity > 64 * 1024 then p
  else bufReset b :: p

/-- The pool invariant of spec section 4.2: every pooled buffer is
empty and within the capacity ceiling. -/
def PoolInv (p : BufPool) : Prop :=
  ∀ b ∈ p, b.content = "" ∧ b.capacity ≤ 64 * 1024

/-! ## Worker reference counting (logger.go `Close`, `With`,
`WithFields`, sampler wrapping; worker source `newWorker`/`stop`) -/

/-- The shared-worker ownership state: one closed-flag per Logger
handle sharing the worker, the worker's `refCount`, its stopped flag,
and its membership in the process-wide flush registry. -/
structure WorkerRef where
  handles : List Bool
  refCount : Int
  stopped : Bool
  registered : Bool
deriving DecidableEq

/-- Ownership events: `derive` is `With`/`WithFields`/sampler wrapping
(`refCount.Add(1)` plus a fresh open handle); `close i` is
`Logger.Close` on handle `i` (the `closed` CAS makes repeats no-ops;
`refCount.Add(-1) == 0` stops the worker and removes it from the
registry). -/
inductive RefEvent where
  | derive
  | close (i : Nat)

/-- `newWorker` plus the creating handle: refCount starts at one, the
worker is registered. -/
def refInit : WorkerRef :=
  { handles := [false], refCount := 1, stopped := false, registered := true }

/-- One ownership transition (from `Logger.Close`, `Logger.With`,
`worker.stop`). -/
def refStep (s : WorkerRef) : RefEvent → WorkerRef
  | .derive => { s with handles := s.handles ++ [false], refCount := s.refCount + 1 }
  | .close i =>
    match s.handles[i]? with
    | some false =>
      let s' := { s with handles := s.handles.set i true, refCount := s.refCount - 1 }
      if s'.refCount = 0 then { s' with stopped := true, registered := false } else s'
    | _ => s

/-- A worker's whole ownership history from creation. -/
def refRun (es : List RefEvent) : WorkerRef := es.foldl refStep refInit

/-- The number of live (not yet closed) handles. -/
def openHandles (s : WorkerRef) : Nat := (s.handles.filter (fun c => !c)).length

/-! ## Spec-side definitions

These definitions follow the words of the spec (its field-ordering
contract and its quoting contract) rather than the source, for
comparison with the source-derived encoders above. -/

/-- Spec-side: the quoting contract of spec sections 4.3 and 8 — a text
value is wrapped in double quotes iff it contains a space or an equals
sign. -/
def quoteVal (val : String) : String :=
  if val.data.contains ' ' || val.data.contains '=' then "\"" ++ val ++ "\"" else val

/-- Spec-side: text output rendered as independent chunks in the
spec-claimed fixed order — header, then logger-attached loose fields,
call-site loose fields, logger-attached typed fields, context typed
fields, call-site typed fields. -/
def specOrderedText (l : LoggerState) (cfg : LoggerConfig) (level : Level) (msg : String)
    (callFields : List AnyVal) (callTypedFields ctxFields : List Field) (t : GoTime) : String :=
  (if !t.isZero then appendTime "" t cfg.timeFormat ++ " " else "") ++
  (if level ≠ noLevel then
    match cachedLevelString level with
    | some s => s ++ " "
    | none => ""
   else "") ++
  (if cfg.pfx ≠ "" then cfg.pfx ++ ": " else "") ++
  (if msg ≠ "" then msg else "") ++
  processFields "" l.fields ++
  processFields "" callFields ++
  processTypedFields cfg.timeFormat "" l.typedFields ++
  processTypedFields cfg.timeFormat "" ctxFields ++
  processTypedFields cfg.timeFormat "" callTypedFields ++
  "\n"

/-- Spec-side: JSON output with the field groups in the spec-claimed
order — the pre-encoded fragment (standing in for the logger-attached
fields) or, when absent, the logger-attached loose fields first, then
call-site loose fields, then logger-attached typed fields, then context
typed fields, then call-site typed fields. -/
def specOrderedJSON (l : LoggerState) (cfg : LoggerConfig) (level : Level) (msg : String)
    (callFields : List AnyVal) (callTypedFields ctxFields : List Field) (t : GoTime) : String :=
  let st : String × Bool :=
    if !t.isZero then ("\x7b\"time\":" ++ jsonTimeVal cfg.timeFormat t, false)
    else ("\x7b", true)
  let st := if level ≠ noLevel then
      (st.1 ++ (if st.2 then "" else ",") ++ levelJSONField level, false)
    else st
  let st := if cfg.pfx ≠ "" then
      (appendJSONString (st.1 ++ (if st.2 then "" else ",") ++ "\"prefix\":") cfg.pfx, false)
    else st
  let st := if msg ≠ "" then
      (appendJSONString (st.1 ++ (if st.2 then "" else ",") ++ "\"msg\":") msg, false)
    else st
  let preEncoded := l.preEncodedJSON
  let hasPreEncoded := preEncoded.length > 0 || (l.fields.isEmpty && l.typedFields.isEmpty)
  let st := if hasPreEncoded && preEncoded.length > 0 then
      ((if st.2 then st.1 ++ preEncoded.drop 1 else st.1 ++ preEncoded), false)
    else if !hasPreEncoded then jsonLooseLoop st l.fields else st
  let st := jsonLooseLoop st callFields
  let st := if !hasPreEncoded then jsonTypedLoop cfg.timeFormat st l.typedFields else st
  let st := jsonTypedLoop cfg.timeFormat st ctxFields
  let st := jsonTypedLoop cfg.timeFormat st callTypedFields
  st.1 ++ "\x7d\n"

/-- Concatenation of a list of byte strings (used to state what a
drained queue contributes to the destination). -/
def concatAll : List String → String
  | [] => ""
  | b :: rest => b ++ concatAll rest

/-! ## Helper lemmas -/

/-- The bytes one loose pair appends in text output. -/
def pairChunk (k v : AnyVal) : String :=
  " " ++ formatAny k ++ "=" ++ quoteVal (formatAny v)

/-- The bytes one typed field appends in text output. -/
def fieldChunk (f : Field) (tf : String) : String :=
  " " ++ f.key ++ "=" ++ quoteVal (textFieldVal f tf)

theorem processFields_cons_skip {k v : AnyVal} {rest : List AnyVal}
    (h : formatAny k = "") (b : String) :
    processFields b (k :: v :: rest) = processFields b rest := by
  simp [processFields, h]

theorem processFields_cons_step {k v : AnyVal} {rest : List AnyVal}
    (h : ¬formatAny k = "") (b : String) :
    processFields b (k :: v :: rest) = processFields (b ++ pairChunk k v) rest := by
  simp [processFields, h, pairChunk, quoteVal, String.append_assoc]

theorem processFields_append_left : ∀ (fs : List AnyVal) (b c : String),
    processFields (b ++ c) fs = b ++ processFields c fs
  | [], b, c => by simp [processFields]
  | [_], b, c => by simp [processFields]
  | k :: v :: rest, b, c => by
    by_cases h : formatAny k = ""
    · rw [processFields_cons_skip h, processFields_cons_skip h]
      exact processFields_append_left rest b c
    · rw [processFields_cons_step h, processFields_cons_step h,
        String.append_assoc]
      exact processFields_append_left rest b (c ++ pairChunk k v)

theorem processFields_shift (fs : List AnyVal) (b : String) :
    processFields b fs = b ++ processFields "" fs := by
  rw [← String.append_empty b, processFields_append_left fs b "",
    String.append_empty b]

theorem processFields_concat : ∀ (xs : List AnyVal), xs.length % 2 = 0 →
    ∀ (ys : List AnyVal) (b : String),
      processFields b (xs ++ ys) = processFields (processFields b xs) ys
  | [], _, ys, b => by simp [processFields]
  | [_], h, ys, b => by simp at h
  | k :: v :: rest, h, ys, b => by
    have hr : rest.length % 2 = 0 := by simp at h; omega
    by_cases hk : formatAny k = ""
    · rw [List.cons_append, List.cons_append,
        processFields_cons_skip hk, processFields_cons_skip hk]
      exact processFields_concat rest hr ys b
    · rw [List.cons_append, List.cons_append,
        processFields_cons_step hk, processFields_cons_step hk]
      exact processFields_concat rest hr ys (b ++ pairChunk k v)

theorem processTypedFields_cons_skip {f : Field} {rest : List Field} {tf : String}
    (h : f.key = "") (b : String) :
    processTypedFields tf b (f :: rest) = processTypedFields tf b rest := by
  simp [processTypedFields, h]

theorem processTypedFields_cons_step {f : Field} {rest : List Field} {tf : String}
    (h : ¬f.key = "") (b : String) :
    processTypedFields tf b (f :: rest) =
      processTypedFields tf (b ++ fieldChunk f tf) rest := by
  simp [processTypedFields, h, fieldChunk, quoteVal, String.append_assoc]

theorem processTypedFields_append_left (tf : String) :
    ∀ (fs : List Field) (b c : String),
      processTypedFields tf (b ++ c) fs = b ++ processTypedFields tf c fs
  | [], b, c => by simp [processTypedFields]
  | f :: rest, b, c => by
    by_cases h : f.key = ""
    · rw [processTypedFields_cons_skip h, processTypedFields_cons_skip h]
      exact processTypedFields_append_left tf rest b c
    · rw [processTypedFields_cons_step h, processTypedFields_cons_step h,
        String.append_assoc]
      exact processTypedFields_append_left tf rest b (c ++ fieldChunk f tf)

theorem processTypedFields_shift (tf : String) (fs : List Field) (b : String) :
    processTypedFields tf b fs = b ++ processTypedFields tf "" fs := by
  rw [← String.append_empty b, processTypedFields_append_left tf fs b "",
    String.append_empty b]

theorem processTypedFields_concat (tf : String) :
    ∀ (xs ys : List Field) (b : String),
      processTypedFields tf b (xs ++ ys) =
        processTypedFields tf (processTypedFields tf b xs) ys
  | [], ys, b => by simp [processTypedFields]
  | f :: rest, ys, b => by
    by_cases h : f.key = ""
    · rw [List.cons_append, processTypedFields_cons_skip h,
        processTypedFields_cons_skip h]
      exact processTypedFields_concat tf rest ys b
    · rw [List.cons_append, processTypedFields_cons_step h,
        processTypedFields_cons_step h]
      exact processTypedFields_concat tf rest ys (b ++ fieldChunk f tf)

theorem jsonLooseLoop_concat : ∀ (xs : List AnyVal), xs.length % 2 = 0 →
    ∀ (ys : List AnyVal) (st : String × Bool),
      jsonLooseLoop st (xs ++ ys) = jsonLooseLoop (jsonLooseLoop st xs) ys
  | [], _, ys, st => by
    obtain ⟨b, first⟩ := st
    simp [jsonLooseLoop]
  | [_], h, ys, st => by simp at h
  | k :: v :: rest, h, ys, st => by
    have hr : rest.length % 2 = 0 := by simp at h; omega
    obtain ⟨b, first⟩ := st
    simp only [List.cons_append, jsonLooseLoop]
    exact jsonLooseLoop_concat rest hr ys _

theorem jsonLooseLoop_short (xs : List AnyVal) (h : xs.length ≤ 1) (st : String × Bool) :
    jsonLooseLoop st xs = st := by
  obtain ⟨b, first⟩ := st
  match xs with
  | [] => rfl
  | [_] => rfl
  | _ :: _ :: _ => simp at h

theorem jsonTypedLoop_concat (tf : String) :
    ∀ (xs ys : List Field) (st : String × Bool),
      jsonTypedLoop tf st (xs ++ ys) = jsonTypedLoop tf (jsonTypedLoop tf st xs) ys
  | [], ys, st => by
    obtain ⟨b, first⟩ := st
    simp [jsonTypedLoop]
  | f :: rest, ys, st => by
    obtain ⟨b, first⟩ := st
    simp only [List.cons_append, jsonTypedLoop]
    exact jsonTypedLoop_concat tf rest ys _

theorem drainAllLoop_spec : ∀ (q : List String) (s : WorkerState),
    drainAllLoop s q =
      { s with
        bw := s.bw ++ concatAll q,
        released := s.released ++ q }
  | [], s => by simp [drainAllLoop, concatAll]
  | b :: rest, s => by
    rw [show drainAllLoop s (b :: rest) = drainAllLoop (workerWrite s b) rest from rfl,
      drainAllLoop_spec rest]
    simp [workerWrite, concatAll, String.append_assoc]

theorem drainAll_spec (s : WorkerState) :
    drainAll s =
      { s with
        queue := [],
        bw := s.bw ++ concatAll s.queue,
        released := s.released ++ s.queue } := by
  rw [drainAll, drainAllLoop_spec]

/-! ## Claim theorems -/

/-- C3: the spec says every float64/float32 rendered into JSON output
serializes NaN and ±infinity as the token `null`, both for loosely
typed top-level values and through the visitor interface
(`AddFloat64`/`AppendFloat64`).  The loose path (`appendJSONAny`) does
so, but the visitor methods of `json_encoder.go` call
`strconv.AppendFloat` with no non-finite check and emit the invalid
JSON tokens `NaN`/`+Inf`: the code contradicts the spec's stated
output contract. -/
theorem c3_nonfinite_floats :
    ((getJSONEncoder "").AddFloat64 "x" GoFloat.nan).buf = "\"x\":NaN" ∧
    ((getJSONEncoder "").AddFloat64 "x" (GoFloat.inf false)).buf = "\"x\":+Inf" ∧
    ((getJSONEncoder "").AppendFloat64 GoFloat.nan).buf = "NaN" ∧
    appendJSONAny "" (AnyVal.float64v GoFloat.nan) = "null" ∧
    appendJSONAny "" (AnyVal.float64v (GoFloat.inf false)) = "null" ∧
    appendJSONAny "" (AnyVal.float32v GoFloat.nan) = "null" := by
  refine ⟨?_, ?_, ?_, ?_, ?_, ?_⟩ <;> decide

/-- C5: whenever `sync()` returns on a running worker, every buffer
enqueued before the call has been written to the destination in
enqueue order, the buffered writer has been flushed, and the return
value is the flush error; on a stopped worker it returns `nil` and
changes nothing. -/
theorem c5_sync_drains_flushes (s : WorkerState) :
    (s.stopped = false →
      (syncStep s).1 = s.flushErr ∧
      (syncStep s).2.queue = [] ∧
      (s.flushErr = none →
        (syncStep s).2.dest = s.dest ++ s.bw ++ concatAll s.queue ∧
        (syncStep s).2.bw = "")) ∧
    (s.stopped = true → syncStep s = (none, s)) := by
  constructor
  · intro hrun
    rw [syncStep, if_neg (by simp [hrun]), drainAll_spec]
    rcases hfe : s.flushErr with _ | e
    · simp [flushBuffer, hfe, String.append_assoc]
    · simp [flushBuffer, hfe]
  · intro hstop
    rw [syncStep, if_pos hstop]

/-- C5 witness: on a concrete running worker with two queued buffers
and a healthy writer, `sync` returns `nil`, empties the queue and puts
both buffers on the destination in order. -/
theorem c5_sync_drains_flushes_witness :
    (syncStep { emptyWorker with queue := ["A", "B"], bw := "x" }).1 =
        ({ emptyWorker with queue := ["A", "B"], bw := "x" } : WorkerState).flushErr ∧
      (syncStep { emptyWorker with queue := ["A", "B"], bw := "x" }).2.queue = [] ∧
      ((({ emptyWorker with queue := ["A", "B"], bw := "x" } : WorkerState).flushErr = none) →
        (syncStep { emptyWorker with queue := ["A", "B"], bw := "x" }).2.dest =
            "" ++ "x" ++ concatAll ["A", "B"] ∧
          (syncStep { emptyWorker with queue := ["A", "B"], bw := "x" }).2.bw = "") :=
  (c5_sync_drains_flushes { emptyWorker with queue := ["A", "B"], bw := "x" }).1 (by decide)

/-- C6: on a full queue, `submit` behaves per overflow policy — sync
writes the buffer's bytes directly to the destination on the caller's
thread and releases the buffer, drop releases it without writing,
block suspends the caller; and in the concrete drop/capacity-1
scenario, of two rapid submissions with no draining the second buffer
is released and its bytes never reach the destination. -/
theorem c6_overflow_policies :
    (∀ (s : WorkerState) (cap : Nat) (b : String), ¬s.queue.length < cap →
      submit s cap .overflowSync b =
        ({ s with
            dest := s.dest ++ b,
            released := s.released ++ [b] }, .wroteDirect) ∧
      submit s cap .overflowDrop b =
        ({ s with released := s.released ++ [b] }, .droppedReleased) ∧
      submit s cap .overflowBlock b = (s, .blocked)) ∧
    ((submit emptyWorker 1 .overflowDrop "A").2 = .enqueued ∧
      (submit (submit emptyWorker 1 .overflowDrop "A").1 1 .overflowDrop "B").2 =
        .droppedReleased ∧
      (submit (submit emptyWorker 1 .overflowDrop "A").1 1 .overflowDrop "B").1 =
        { emptyWorker with
            queue := ["A"],
            released := ["B"] }) := by
  constructor
  · intro s cap b h
    refine ⟨?_, ?_, ?_⟩ <;> rw [submit, if_neg h]
  · refine ⟨?_, ?_, ?_⟩ <;> decide

/-- C6 witness: the general full-queue clause applied to a concrete
full worker. -/
theorem c6_overflow_policies_witness :
    submit { emptyWorker with queue := ["A"] } 1 .overflowSync "B" =
      ({ { emptyWorker with queue := ["A"] } with
          dest := ({ emptyWorker with queue := ["A"] } : WorkerState).dest ++ "B",
          released :=
            ({ emptyWorker with queue := ["A"] } : WorkerState).released ++ ["B"] },
        .wroteDirect) :=
  (c6_overflow_policies.1 { emptyWorker with queue := ["A"] } 1 "B" (by decide)).1

/-- C7: the buffer pool invariant — a fresh pool satisfies it, release
preserves it (resetting the buffer, discarding it when its capacity
exceeds the 64 KiB ceiling), and every acquisition from a pool
satisfying it yields an empty buffer within the ceiling. -/
theorem c7_buffer_pool :
    PoolInv [] ∧
    (∀ (p : BufPool) (b : Buf), PoolInv p → PoolInv (putBuffer p b)) ∧
    (∀ p : BufPool, PoolInv p →
      (getBuffer p).1.content = "" ∧ (getBuffer p).1.capacity ≤ 64 * 1024 ∧
      PoolInv (getBuffer p).2) ∧
    (∀ (p : BufPool) (b : Buf), b.capacity > 64 * 1024 → putBuffer p b = p) := by
  refine ⟨?_, ?_, ?_, ?_⟩
  · intro b hb
    simp at hb
  · intro p b hp
    by_cases hbig : b.capacity > 64 * 1024
    · rw [putBuffer, if_pos hbig]
      exact hp
    · rw [putBuffer, if_neg hbig]
      intro c hc
      rcases List.mem_cons.mp hc with rfl | hc
      · exact ⟨rfl, by simp only [bufReset]; omega⟩
      · exact hp c hc
  · intro p hp
    match p with
    | [] => exact ⟨rfl, by decide, fun b hb => by simp [getBuffer] at hb⟩
    | b :: rest =>
      refine ⟨(hp b (by simp)).1, (hp b (by simp)).2, ?_⟩
      intro c hc
      exact hp c (List.mem_cons_of_mem b hc)
  · intro p b h
    rw [putBuffer, if_pos h]

/-- C7 witness: releasing a used in-ceiling buffer into the pool and
reacquiring yields an empty buffer; an oversized buffer is discarded. -/
theorem c7_buffer_pool_witness :
    PoolInv (putBuffer [] { content := "old data", capacity := 4096 }) ∧
    (getBuffer (putBuffer [] { content := "old data", capacity := 4096 })).1.content = "" ∧
    putBuffer [] { content := "big", capacity := 70000 } = [] := by
  have h1 := c7_buffer_pool.2.1 [] { content := "old data", capacity := 4096 }
    c7_buffer_pool.1
  refine ⟨h1, (c7_buffer_pool.2.2.1 _ h1).1, c7_buffer_pool.2.2.2 [] _ (by decide)⟩

/-- C9: in text output a field value is wrapped in double quotes iff
its string form contains a space or an equals sign — stated for the
quoting function itself (including the only-if direction), for one
loose pair and one typed field as rendered by the shared loops, and
for the spec's concrete `path` examples end to end. -/
theorem c9_text_quoting :
    (∀ val : String,
      (quoteVal val = "\"" ++ val ++ "\"" ↔
        (val.data.contains ' ' || val.data.contains '=') = true) ∧
      ((val.data.contains ' ' || val.data.contains '=') = false → quoteVal val = val)) ∧
    (∀ (b : String) (k v : AnyVal), ¬formatAny k = "" →
      processFields b [k, v] =
        b ++ " " ++ formatAny k ++ "=" ++ quoteVal (formatAny v)) ∧
    (∀ (b tf : String) (f : Field), ¬f.key = "" →
      processTypedFields tf b [f] =
        b ++ " " ++ f.key ++ "=" ++ quoteVal (textFieldVal f tf)) ∧
    formatLogText ⟨[], [], ""⟩ ⟨"", DefaultTimeFormat, .textFormatter⟩ noLevel ""
      [.str "path", .str "/a b"] [] [] zeroTime = " path=\"/a b\"\n" ∧
    formatLogText ⟨[], [], ""⟩ ⟨"", DefaultTimeFormat, .textFormatter⟩ noLevel ""
      [.str "path", .str "/a"] [] [] zeroTime = " path=/a\n" := by
  refine ⟨?_, ?_, ?_, by decide, by decide⟩
  · intro val
    have hq : ("\"" : String).length = 1 := rfl
    cases hcond : (val.data.contains ' ' || val.data.contains '=') with
    | false =>
      have hv : quoteVal val = val := by
        unfold quoteVal
        rw [if_neg (show ¬((val.data.contains ' ' || val.data.contains '=') = true) from by
          rw [hcond]; decide)]
      refine ⟨⟨fun h => ?_, fun h => absurd h (by decide)⟩, fun _ => hv⟩
      rw [hv] at h
      have hlen := congrArg String.length h
      rw [String.length_append, String.length_append, hq] at hlen
      exact absurd hlen (by omega)
    | true =>
      have hv : quoteVal val = "\"" ++ val ++ "\"" := by
        unfold quoteVal
        rw [if_pos hcond]
      exact ⟨⟨fun _ => rfl, fun _ => hv⟩, fun hfalse => absurd hfalse (by decide)⟩
  · intro b k v h
    rw [show [k, v] = k :: v :: ([] : List AnyVal) from rfl,
      processFields_cons_step h]
    simp [processFields, pairChunk, String.append_assoc]
  · intro b tf f h
    rw [show [f] = f :: ([] : List Field) from rfl,
      processTypedFields_cons_step h]
    simp [processTypedFields, fieldChunk, String.append_assoc]

/-- C9 witness: the loose-pair clause applied to the concrete `path`
pair with a space in the value. -/
theorem c9_text_quoting_witness :
    processFields "" [AnyVal.str "path", AnyVal.str "/a b"] =
      "" ++ " " ++ formatAny (AnyVal.str "path") ++ "=" ++
        quoteVal (formatAny (AnyVal.str "/a b")) :=
  c9_text_quoting.2.1 "" (AnyVal.str "path") (AnyVal.str "/a b") (by decide)

/-- C10: the list-field constructors on an empty slice store a zero
count and no pointer to backing memory, and both encoders render any
list-typed Field with a non-positive count as exactly `[]` — for every
value of the pointer slot, i.e. without dereferencing the backing
array, which the encoders touch only under their `f.Int > 0` guard. -/
theorem c10_empty_lists :
    (∀ k : String,
      Ints k [] =
        { key := k, str := "", fany := .none, int := 0, ptr := none, type := .intsType } ∧
      Strings k [] =
        { key := k, str := "", fany := .none, int := 0, ptr := none, type := .stringsType } ∧
      Times k [] =
        { key := k, str := "", fany := .none, int := 0, ptr := none, type := .timesType }) ∧
    (∀ (b tf : String) (pc : Bool) (f : Field),
      (f.type = .intsType ∨ f.type = .stringsType ∨ f.type = .timesType) →
      f.int = 0 →
      encodeFieldToJSON b f tf pc = appendJSONKey b f.key pc ++ "[]" ∧
      textFieldVal f tf = "[]") := by
  constructor
  · intro k
    exact ⟨by simp [Ints], by simp [Strings], by simp [Times]⟩
  · intro b tf pc f hty hz
    have hneg : ¬(0 : Int) < f.int := by omega
    rcases hty with h | h | h <;>
      exact ⟨by
          simp only [encodeFieldToJSON, h, if_neg hneg]
          rw [String.append_empty, String.append_assoc,
            show ("[" : String) ++ "]" = "[]" from by decide],
        by
          simp only [textFieldVal, h, if_neg hneg]
          rw [String.append_empty]
          decide⟩

/-- C10 witness: the rendering clause applied to `Ints "xs" []`, whose
shape the first clause pins down. -/
theorem c10_empty_lists_witness :
    encodeFieldToJSON "" (Ints "xs" []) "" false =
      appendJSONKey "" (Ints "xs" []).key false ++ "[]" ∧
    textFieldVal (Ints "xs" []) "" = "[]" :=
  c10_empty_lists.2 "" "" false (Ints "xs" []) (Or.inl (by decide)) (by decide)

theorem filter_not_set_true : ∀ (l : List Bool) (i : Nat), l[i]? = some false →
    ((l.set i true).filter (fun c => !c)).length + 1 = (l.filter (fun c => !c)).length
  | [], i, h => by simp at h
  | b :: rest, 0, h => by
    simp only [List.getElem?_cons_zero, Option.some.injEq] at h
    subst h
    simp [List.set, List.filter]
  | b :: rest, i + 1, h => by
    simp only [List.getElem?_cons_succ] at h
    have ih := filter_not_set_true rest i h
    cases b <;> simp [List.set, List.filter] <;> omega

theorem getElem?_set_true : ∀ (l : List Bool) (i : Nat), l[i]? = some false →
    (l.set i true)[i]? = some true
  | [], i, h => by simp at h
  | _ :: _, 0, _ => by simp [List.set]
  | b :: rest, i + 1, h => by
    simp only [List.getElem?_cons_succ] at h
    simpa [List.set] using getElem?_set_true rest i h

theorem refStep_inv (s : WorkerRef)
    (h1 : s.refCount = (openHandles s : Int))
    (h2 : s.registered = !s.stopped) (e : RefEvent) :
    (refStep s e).refCount = (openHandles (refStep s e) : Int) ∧
    (refStep s e).registered = !(refStep s e).stopped := by
  have h1' : s.refCount = ((s.handles.filter (fun c => !c)).length : Int) := by
    simpa [openHandles] using h1
  cases e with
  | derive =>
    refine ⟨?_, h2⟩
    simp only [refStep, openHandles, List.filter_append, List.length_append]
    have hone : (([false] : List Bool).filter (fun c => !c)).length = 1 := by decide
    rw [hone, h1']
    push_cast
    omega
  | close i =>
    rcases hh : s.handles[i]? with _ | b
    · simpa [refStep, hh] using ⟨h1, h2⟩
    · cases b
      · have hopen := filter_not_set_true s.handles i hh
        simp only [refStep, hh]
        split_ifs with hz
        · refine ⟨?_, by simp⟩
          simp only [openHandles]
          omega
        · refine ⟨?_, h2⟩
          simp only [openHandles]
          omega
      · simpa [refStep, hh] using ⟨h1, h2⟩

theorem refFold_inv : ∀ (es : List RefEvent) (s : WorkerRef),
    s.refCount = (openHandles s : Int) → s.registered = !s.stopped →
    (List.foldl refStep s es).refCount = (openHandles (List.foldl refStep s es) : Int) ∧
    (List.foldl refStep s es).registered = !(List.foldl refStep s es).stopped
  | [], _, h1, h2 => ⟨h1, h2⟩
  | e :: es, s, h1, h2 => by
    have h := refStep_inv s h1 h2 e
    simpa using refFold_inv es (refStep s e) h.1 h.2

/-- C8: over every sequence of derivations and closes, the worker's
reference count equals the number of live (unclosed) handles, starting
at one on creation; the worker is registered iff it has not stopped; a
`close` stops the worker exactly when it closes a live handle and the
count was one (i.e. the count reaches zero); and a repeated close of
the same handle has no further effect. -/
theorem c8_refcount_invariant :
    refInit.refCount = 1 ∧
    (∀ es : List RefEvent,
      (refRun es).refCount = (openHandles (refRun es) : Int) ∧
      (refRun es).registered = !(refRun es).stopped) ∧
    (∀ (s : WorkerRef) (i : Nat),
      ((refStep s (.close i)).stopped = true ↔
        (s.stopped = true ∨ (s.handles[i]? = some false ∧ s.refCount = 1)))) ∧
    (∀ (s : WorkerRef) (i : Nat),
      refStep (refStep s (.close i)) (.close i) = refStep s (.close i)) := by
  refine ⟨rfl, ?_, ?_, ?_⟩
  · intro es
    exact refFold_inv es refInit (by decide) rfl
  · intro s i
    rcases hh : s.handles[i]? with _ | b
    · simp [refStep, hh]
    · cases b
      · simp only [refStep, hh]
        split_ifs with hz
        · constructor
          · intro _
            exact Or.inr ⟨by trivial, by omega⟩
          · intro _
            rfl
        · constructor
          · intro h
            exact Or.inl h
          · rintro (h | ⟨-, h⟩)
            · exact h
            · exact absurd h (by omega)
      · simp [refStep, hh]
  · intro s i
    rcases hh : s.handles[i]? with _ | b
    · simp [refStep, hh]
    · cases b
      · have hset := getElem?_set_true s.handles i hh
        simp only [refStep, hh]
        split_ifs with hz <;> simp [refStep, hset]
      · simp [refStep, hh]

theorem allowDecision {α : Type} (first ther n : Nat) (x : α) :
    ((if n > first ∧ (ther = 0 ∨ (n - first) % ther ≠ 0) then (false, x) else (true, x)) :
        Bool × α) =
      (decide (n ≤ first ∨ (ther ≠ 0 ∧ (n - first) % ther = 0)), x) := by
  split_ifs with hd
  · simp only [Prod.mk.injEq]
    refine ⟨?_, trivial⟩
    symm
    rw [decide_eq_false_iff_not]
    rintro (h | ⟨h1, h2⟩)
    · omega
    · rcases hd.2 with h0 | hr
      · exact h1 h0
      · exact hr h2
  · simp only [Prod.mk.injEq]
    refine ⟨?_, trivial⟩
    symm
    rw [decide_eq_true_iff]
    by_cases hn : n ≤ first
    · exact Or.inl hn
    · push_neg at hd
      have h2 := hd (by omega)
      push_neg at h2
      exact Or.inr h2

theorem samplerCheck_inRange (cfg : SamplerCfg) (cs : Counters) (lvl : Level)
    (msg : String) (tn : Int) (hmin : samplerMinLevel ≤ lvl) (hmax : lvl ≤ samplerMaxLevel)
    (reset : Int) (k : Nat)
    (hcs : cs (counterIndex lvl msg).1 (counterIndex lvl msg).2 =
      { resetAt := reset, count := k })
    (hres : reset > tn) :
    samplerCheck cfg cs lvl msg tn =
      (decide (k + 1 ≤ cfg.first ∨
          (cfg.thereafter ≠ 0 ∧ (k + 1 - cfg.first) % cfg.thereafter = 0)),
        fun a b =>
          if a = (counterIndex lvl msg).1 ∧ b = (counterIndex lvl msg).2 then
            { resetAt := reset, count := k + 1 }
          else cs a b) := by
  have hnc : IncCheckReset (cs (counterIndex lvl msg).1 (counterIndex lvl msg).2) tn cfg.tick =
      (k + 1, { resetAt := reset, count := k + 1 }) := by
    rw [hcs]
    unfold IncCheckReset
    rw [if_pos hres]
  unfold samplerCheck
  rw [if_pos ⟨hmin, hmax⟩]
  simp only [hnc]
  exact allowDecision cfg.first cfg.thereafter (k + 1) _

theorem rangeMapShift (n : Nat) (f : Nat → Bool) :
    (List.range (n + 1)).map f = f 0 :: (List.range n).map (fun d => f (d + 1)) := by
  rw [List.range_succ_eq_map, List.map_cons, List.map_map]
  rfl

theorem checkSeq_inWindow (cfg : SamplerCfg) (lvl : Level) (msg : String)
    (hmin : samplerMinLevel ≤ lvl) (hmax : lvl ≤ samplerMaxLevel) (reset : Int) :
    ∀ (ts : List Int) (k : Nat) (cs : Counters),
      (∀ t ∈ ts, t < reset) →
      cs (counterIndex lvl msg).1 (counterIndex lvl msg).2 =
        { resetAt := reset, count := k } →
      checkSeq cfg cs lvl msg ts =
        (List.range ts.length).map (fun d =>
          decide (k + d + 1 ≤ cfg.first ∨
            (cfg.thereafter ≠ 0 ∧ (k + d + 1 - cfg.first) % cfg.thereafter = 0)))
  | [], _, _, _, _ => rfl
  | t :: ts, k, cs, hts, hcs => by
    have hres : reset > t := hts t (List.mem_cons_self t ts)
    have hsc := samplerCheck_inRange cfg cs lvl msg t hmin hmax reset k hcs hres
    have htail := checkSeq_inWindow cfg lvl msg hmin hmax reset ts (k + 1)
      (fun a b =>
        if a = (counterIndex lvl msg).1 ∧ b = (counterIndex lvl msg).2 then
          { resetAt := reset, count := k + 1 }
        else cs a b)
      (fun t' ht' => hts t' (List.mem_cons_of_mem t ht'))
      (by simp)
    rw [show checkSeq cfg cs lvl msg (t :: ts) =
        (samplerCheck cfg cs lvl msg t).1 ::
          checkSeq cfg (samplerCheck cfg cs lvl msg t).2 lvl msg ts from rfl,
      hsc]
    dsimp only
    rw [htail, List.length_cons, rangeMapShift]
    exact congr_arg₂ List.cons rfl (List.map_congr_left (fun d _ => by
      rw [show k + 1 + d + 1 = k + (d + 1) + 1 from by omega]))

/-- C4: starting from fresh counters, for a sequence of sequential
checks with a fixed in-range level and message all inside one tick
window, the n-th call returns true iff `n ≤ first` or
(`thereafter ≠ 0` and `(n − first) mod thereafter = 0`). -/
theorem c4_sampler_decision (cfg : SamplerCfg) (lvl : Level) (msg : String) (t0 : Int)
    (ts : List Int) (hmin : samplerMinLevel ≤ lvl) (hmax : lvl ≤ samplerMaxLevel)
    (ht0 : 0 ≤ t0) (hts : ∀ t ∈ ts, t < t0 + cfg.tick) :
    checkSeq cfg newCounters lvl msg (t0 :: ts) =
      (List.range (ts.length + 1)).map (fun i =>
        decide (i + 1 ≤ cfg.first ∨
          (cfg.thereafter ≠ 0 ∧ (i + 1 - cfg.first) % cfg.thereafter = 0))) := by
  have hcs0 : newCounters (counterIndex lvl msg).1 (counterIndex lvl msg).2 =
      { resetAt := 0, count := 0 } := rfl
  have hnc : IncCheckReset
      (newCounters (counterIndex lvl msg).1 (counterIndex lvl msg).2) t0 cfg.tick =
      (1, { resetAt := t0 + cfg.tick, count := 1 }) := by
    rw [hcs0]
    unfold IncCheckReset
    split_ifs with h
    · simp only at h
      exact absurd h (by omega)
    · rfl
  have hsc : samplerCheck cfg newCounters lvl msg t0 =
      (decide (1 ≤ cfg.first ∨
          (cfg.thereafter ≠ 0 ∧ (1 - cfg.first) % cfg.thereafter = 0)),
        fun a b =>
          if a = (counterIndex lvl msg).1 ∧ b = (counterIndex lvl msg).2 then
            { resetAt := t0 + cfg.tick, count := 1 }
          else newCounters a b) := by
    unfold samplerCheck
    rw [if_pos ⟨hmin, hmax⟩]
    simp only [hnc]
    exact allowDecision cfg.first cfg.thereafter 1 _
  have htail := checkSeq_inWindow cfg lvl msg hmin hmax (t0 + cfg.tick) ts 1
    (fun a b =>
      if a = (counterIndex lvl msg).1 ∧ b = (counterIndex lvl msg).2 then
        { resetAt := t0 + cfg.tick, count := 1 }
      else newCounters a b)
    hts (by simp)
  rw [show checkSeq cfg newCounters lvl msg (t0 :: ts) =
      (samplerCheck cfg newCounters lvl msg t0).1 ::
        checkSeq cfg (samplerCheck cfg newCounters lvl msg t0).2 lvl msg ts from rfl,
    hsc]
  dsimp only
  rw [htail, rangeMapShift]
  exact congr_arg₂ List.cons rfl (List.map_congr_left (fun d _ => by
    rw [show 1 + d + 1 = d + 1 + 1 from by omega]))

/-- C4 witness: with first=1, thereafter=3, six sequential checks
inside one tick window return true, false, false, true, false,
false. -/
theorem c4_sampler_decision_witness :
    checkSeq { tick := 10, first := 1, thereafter := 3 } newCounters 0 "m"
      [0, 1, 2, 3, 4, 5] = [true, false, false, true, false, false] := by
  rw [c4_sampler_decision { tick := 10, first := 1, thereafter := 3 } 0 "m" 0
    [1, 2, 3, 4, 5] (by decide) (by decide) (by decide) (by decide)]
  decide

/-- C1 (amended): the fast-path text encoder renders the field groups
in exactly the spec-claimed order (logger loose, call-site loose,
logger typed, context typed, call-site typed); the fast-path JSON
encoder renders them in the claimed order whenever the pre-encoded
fragment stands in for the logger-attached fields, or the logger has
no attached typed fields, or the call site passes at most one loose
element — in the remaining case (no fragment, attached typed fields
present, a call-site loose pair present) it renders the
logger-attached typed fields before the call-site loosely-typed
fields. -/
theorem c1_render_order (l : LoggerState) (cfg : LoggerConfig) (level : Level)
    (msg : String) (callFields : List AnyVal) (callTypedFields ctxFields : List Field)
    (t : GoTime)
    (hjson : l.preEncodedJSON.length > 0 ∨ (l.fields = [] ∧ l.typedFields = []) ∨
      l.typedFields = [] ∨ callFields.length ≤ 1) :
    formatLogText l cfg level msg callFields callTypedFields ctxFields t =
      specOrderedText l cfg level msg callFields callTypedFields ctxFields t ∧
    formatLogJSON l cfg level msg callFields callTypedFields ctxFields t =
      specOrderedJSON l cfg level msg callFields callTypedFields ctxFields t := by
  constructor
  · simp only [formatLogText, specOrderedText]
    conv_lhs =>
      rw [processTypedFields_shift cfg.timeFormat callTypedFields,
        processTypedFields_shift cfg.timeFormat ctxFields,
        processTypedFields_shift cfg.timeFormat l.typedFields,
        processFields_shift callFields,
        processFields_shift l.fields]
    rcases hcached : cachedLevelString level with _ | s <;>
      split_ifs <;>
        simp [hcached, String.append_assoc, String.empty_append, String.append_empty]
  · simp only [formatLogJSON, specOrderedJSON]
    rcases hjson with hpre | ⟨hlf, hlt⟩ | hlt | hcf
    · simp [hpre]
    · simp [hlf, hlt]
    · by_cases hlen : l.preEncodedJSON.length > 0
      · simp [hlt, hlen]
      · by_cases hlf : l.fields.isEmpty
        · simp [hlt, hlen, hlf, jsonTypedLoop]
        · simp [hlt, hlen, hlf, jsonTypedLoop]
    · simp only [jsonLooseLoop_short callFields hcf]
      by_cases hlen : l.preEncodedJSON.length > 0
      · simp [hlen]
      · by_cases hlf : l.fields.isEmpty
        · by_cases hlt2 : l.typedFields.isEmpty
          · simp [hlen, hlf, hlt2]
          · simp [hlen, hlf, hlt2]
        · simp [hlen, hlf]

/-- C1 counterexample: with an attached typed field, no pre-encoded
fragment and a call-site loose pair, the fast-path JSON encoder does
not render in the claimed order (it emits the attached typed field
before the call-site pair). -/
theorem c1_render_order_cex :
    formatLogJSON
        { fields := [], typedFields := [fieldString "a" "b"], preEncodedJSON := "" }
        { pfx := "", timeFormat := DefaultTimeFormat, formatter := .jsonFormatter }
        InfoLevel "hi" [.str "k", .str "v"] [] [] zeroTime ≠
      specOrderedJSON
        { fields := [], typedFields := [fieldString "a" "b"], preEncodedJSON := "" }
        { pfx := "", timeFormat := DefaultTimeFormat, formatter := .jsonFormatter }
        InfoLevel "hi" [.str "k", .str "v"] [] [] zeroTime := by
  decide

/-- C1 witness: the order theorem at a concrete logger with no
attached typed fields. -/
theorem c1_render_order_witness :
    formatLogText { fields := [.str "x", .int 1], typedFields := [], preEncodedJSON := "" }
        { pfx := "p", timeFormat := DefaultTimeFormat, formatter := .textFormatter }
        InfoLevel "hi" [.str "k", .str "v"] [] [] zeroTime =
      specOrderedText { fields := [.str "x", .int 1], typedFields := [], preEncodedJSON := "" }
        { pfx := "p", timeFormat := DefaultTimeFormat, formatter := .textFormatter }
        InfoLevel "hi" [.str "k", .str "v"] [] [] zeroTime ∧
    formatLogJSON { fields := [.str "x", .int 1], typedFields := [], preEncodedJSON := "" }
        { pfx := "p", timeFormat := DefaultTimeFormat, formatter := .textFormatter }
        InfoLevel "hi" [.str "k", .str "v"] [] [] zeroTime =
      specOrderedJSON { fields := [.str "x", .int 1], typedFields := [], preEncodedJSON := "" }
        { pfx := "p", timeFormat := DefaultTimeFormat, formatter := .textFormatter }
        InfoLevel "hi" [.str "k", .str "v"] [] [] zeroTime :=
  c1_render_order _ _ _ _ _ _ _ _ (Or.inr (Or.inr (Or.inl rfl)))

/-- C2 (amended): with no caller or stack capture, the fast-path
encoders produce the same bytes as the slow-path encoders applied to
an Entry populated from the same logger state and arguments, provided
the logger-attached loose field list has even length and, for the JSON
formatter, the pre-encoded fragment stands in for the logger-attached
fields, or the logger has no attached typed fields, or the call site
passes at most one loose element.  (The counterexample shows both
provisos are needed: the fast JSON path orders attached typed fields
before call-site loose pairs, and the fast text path pairs the two
loose lists separately while the slow path pairs their
concatenation.) -/
theorem c2_fast_slow_equiv (l : LoggerState) (cfg : LoggerConfig) (level : Level)
    (msg : String) (keyvals : List AnyVal) (callTypedFields ctxFields : List Field)
    (t : GoTime)
    (heven : l.fields.length % 2 = 0)
    (hjson : cfg.formatter = Formatter.jsonFormatter →
      (l.preEncodedJSON.length > 0 ∨ (l.fields = [] ∧ l.typedFields = []) ∨
        l.typedFields = [] ∨ keyvals.length ≤ 1)) :
    (cfg.formatter = Formatter.textFormatter →
      formatLogText l cfg level msg keyvals callTypedFields ctxFields t =
        formatEntry (populateEntry l cfg level msg keyvals callTypedFields ctxFields t)) ∧
    (cfg.formatter = Formatter.jsonFormatter →
      formatLogJSON l cfg level msg keyvals callTypedFields ctxFields t =
        formatEntry (populateEntry l cfg level msg keyvals callTypedFields ctxFields t)) := by
  constructor
  · intro hf
    simp only [populateEntry, formatEntry, hf]
    simp only [if_neg (show ¬(Formatter.textFormatter = Formatter.jsonFormatter ∧
        (l.preEncodedJSON.length > 0 ∨ (l.fields.length = 0 ∧ l.typedFields.length = 0)))
      from fun h => Formatter.noConfusion h.1), formatText, formatLogText]
    rw [processFields_concat l.fields heven keyvals,
      processTypedFields_concat cfg.timeFormat,
      processTypedFields_concat cfg.timeFormat]
    simp
  · intro hf
    by_cases hP : (l.preEncodedJSON.length > 0 ∨
        (l.fields.length = 0 ∧ l.typedFields.length = 0))
    · simp only [populateEntry, formatEntry, hf, eq_self_iff_true, true_and,
        if_pos hP]
      rcases hP with hlen | ⟨h1, h2⟩
      · simp [formatJSON, formatLogJSON, hlen, jsonTypedLoop_concat cfg.timeFormat]
      · have hlf : l.fields = [] := List.length_eq_zero.mp h1
        have hlt : l.typedFields = [] := List.length_eq_zero.mp h2
        simp [formatJSON, formatLogJSON, hlf, hlt,
          jsonTypedLoop_concat cfg.timeFormat]
    · have hnp := not_or.mp hP
      have hlen0 : l.preEncodedJSON.length = 0 := by
        have := hnp.1
        omega
      have hboth : ¬(l.fields = [] ∧ l.typedFields = []) := fun h =>
        hnp.2 ⟨by simp [h.1], by simp [h.2]⟩
      have hj2 : l.typedFields = [] ∨ keyvals.length ≤ 1 := by
        rcases hjson hf with h | h | h | h
        · exact absurd (Or.inl h) hP
        · exact absurd (Or.inr ⟨by simp [h.1], by simp [h.2]⟩) hP
        · exact Or.inl h
        · exact Or.inr h
      simp only [populateEntry, formatEntry, hf, eq_self_iff_true, true_and,
        if_neg hP]
      rcases hj2 with hlt | hkv
      · have hlf : ¬l.fields = [] := fun h => hboth ⟨h, hlt⟩
        simp [formatJSON, formatLogJSON, hlen0, hboth, hlf, hlt, jsonTypedLoop,
          jsonLooseLoop_concat l.fields heven, jsonTypedLoop_concat cfg.timeFormat]
      · have hbool : (l.fields.isEmpty && l.typedFields.isEmpty) = false := by
          cases hlf2 : l.fields.isEmpty
          · rfl
          · cases hlt2 : l.typedFields.isEmpty
            · rfl
            · exact absurd ⟨List.isEmpty_iff.mp hlf2, List.isEmpty_iff.mp hlt2⟩ hboth
        have hnotpre : (!(decide (l.preEncodedJSON.length > 0) ||
            (l.fields.isEmpty && l.typedFields.isEmpty))) = true := by
          rw [hbool, hlen0]
          decide
        have hfragneg : ¬(((decide (l.preEncodedJSON.length > 0) ||
            (l.fields.isEmpty && l.typedFields.isEmpty)) &&
            decide (l.preEncodedJSON.length > 0)) = true) := by
          rw [hbool, hlen0]
          decide
        simp only [formatLogJSON, formatJSON, if_pos hnotpre, if_neg hfragneg]
        simp [hlen0, jsonLooseLoop_concat l.fields heven,
          jsonLooseLoop_short keyvals hkv, jsonTypedLoop_concat cfg.timeFormat]

/-- C2 counterexample: the fast and slow encoders are NOT
byte-identical for every logger state.  First conjunct: under the JSON
formatter with an attached typed field, no pre-encoded fragment and a
call-site loose pair, the fast path orders the attached typed field
before the pair while the slow path orders it after.  Second conjunct:
under the text formatter with an odd-length attached loose list, the
fast path drops the trailing unpaired key while the slow path pairs it
with the first call-site element. -/
theorem c2_fast_slow_equiv_cex :
    (formatLogJSON
        { fields := [], typedFields := [fieldString "a" "b"], preEncodedJSON := "" }
        { pfx := "", timeFormat := DefaultTimeFormat, formatter := .jsonFormatter }
        InfoLevel "hi" [.str "k", .str "v"] [] [] zeroTime ≠
      formatEntry (populateEntry
        { fields := [], typedFields := [fieldString "a" "b"], preEncodedJSON := "" }
        { pfx := "", timeFormat := DefaultTimeFormat, formatter := .jsonFormatter }
        InfoLevel "hi" [.str "k", .str "v"] [] [] zeroTime)) ∧
    (formatLogText
        { fields := [.str "k"], typedFields := [], preEncodedJSON := "" }
        { pfx := "", timeFormat := DefaultTimeFormat, formatter := .textFormatter }
        InfoLevel "hi" [.str "k2", .str "v2"] [] [] zeroTime ≠
      formatEntry (populateEntry
        { fields := [.str "k"], typedFields := [], preEncodedJSON := "" }
        { pfx := "", timeFormat := DefaultTimeFormat, formatter := .textFormatter }
        InfoLevel "hi" [.str "k2", .str "v2"] [] [] zeroTime)) := by
  constructor
  · decide
  · decide

/-- C2 witness: the equivalence theorem at a concrete JSON logger
whose attached fields are carried by the pre-encoded fragment. -/
theorem c2_fast_slow_equiv_witness :
    (({ pfx := "p", timeFormat := DefaultTimeFormat,
          formatter := .jsonFormatter } : LoggerConfig).formatter =
        Formatter.textFormatter →
      formatLogText { fields := [], typedFields := [], preEncodedJSON := ",\"a\":\"b\"" }
          { pfx := "p", timeFormat := DefaultTimeFormat, formatter := .jsonFormatter }
          InfoLevel "hi" [.str "k", .str "v"] [] [] zeroTime =
        formatEntry (populateEntry
          { fields := [], typedFields := [], preEncodedJSON := ",\"a\":\"b\"" }
          { pfx := "p", timeFormat := DefaultTimeFormat, formatter := .jsonFormatter }
          InfoLevel "hi" [.str "k", .str "v"] [] [] zeroTime)) ∧
    (({ pfx := "p", timeFormat := DefaultTimeFormat,
          formatter := .jsonFormatter } : LoggerConfig).formatter =
        Formatter.jsonFormatter →
      formatLogJSON { fields := [], typedFields := [], preEncodedJSON := ",\"a\":\"b\"" }
          { pfx := "p", timeFormat := DefaultTimeFormat, formatter := .jsonFormatter }
          InfoLevel "hi" [.str "k", .str "v"] [] [] zeroTime =
        formatEntry (populateEntry
          { fields := [], typedFields := [], preEncodedJSON := ",\"a\":\"b\"" }
          { pfx := "p", timeFormat := DefaultTimeFormat, formatter := .jsonFormatter }
          InfoLevel "hi" [.str "k", .str "v"] [] [] zeroTime)) :=
  c2_fast_slow_equiv
    { fields := [], typedFields := [], preEncodedJSON := ",\"a\":\"b\"" }
    { pfx := "p", timeFormat := DefaultTimeFormat, formatter := .jsonFormatter }
    InfoLevel "hi" [.str "k", .str "v"] [] [] zeroTime
    (by decide) (fun _ => Or.inl (by decide))

end Velo
